import Mathlib

set_option maxRecDepth 100000

/-!
Verification of the container-format codec layer of mech3ax-py.

The Python sources under `src/mech3ax` are shallowly embedded here:
bytes are `List Nat` (each element a byte value `< 256`), little-endian
integer fields are decoded with `le16`/`le32`/`le64`, IEEE-754 single
precision fields are carried as their raw 32-bit patterns and interpreted
through `f32Val` when the Python code compares them numerically, and
fallible parsing is modelled with `Option`/`Except`.  Functions keep the
names of the Python functions they embed.
-/

/-! ### Little-endian byte primitives (struct module, `<` formats) -/

/-- Value of the first four bytes of a list, little endian (struct `<I`).
Out-of-range positions read as 0; callers always pass 4-byte slices. -/
def le32 (bs : List Nat) : Nat :=
  bs.getD 0 0 + 256 * (bs.getD 1 0 + 256 * (bs.getD 2 0 + 256 * bs.getD 3 0))

/-- Value of the first two bytes of a list, little endian (struct `<H`). -/
def le16 (bs : List Nat) : Nat :=
  bs.getD 0 0 + 256 * bs.getD 1 0

/-- Value of the first eight bytes of a list, little endian (struct `<Q`). -/
def le64 (bs : List Nat) : Nat :=
  le32 (bs.take 4) + 4294967296 * le32 (bs.drop 4)

/-- The four little-endian bytes of `v % 2^32` (struct pack `<I`). -/
def le32inv (v : Nat) : List Nat :=
  [v % 256, v / 256 % 256, v / 65536 % 256, v / 16777216 % 256]

/-- The eight little-endian bytes of `v % 2^64` (struct pack `<Q`). -/
def le64inv (v : Nat) : List Nat :=
  le32inv (v % 4294967296) ++ le32inv (v / 4294967296)

/-- `struct.unpack_from` bounds behaviour: reading `size` bytes at offset
`off` of `data`.  A negative offset counts from the end of the buffer; a
read past either end raises `struct.error`, modelled as `none`. -/
def unpackAt (data : List Nat) (off : Int) (size : Nat) : Option (List Nat) :=
  let eff : Int := if off < 0 then off + data.length else off
  if 0 ≤ eff ∧ eff + size ≤ data.length then
    some ((data.drop eff.toNat).take size)
  else none

/-- The signed value of a 32-bit word (struct `<i`). -/
def sint32 (n : Nat) : Int :=
  if n < 2147483648 then (n : Int) else (n : Int) - 4294967296

/-! ### Reader-tree codec (`src/mech3ax/parse/reader.py`) -/

/-- A decoded reader-tree value.  `read_reader` returns a Python `int`,
`float`, `str`, `None` or `list`; a float node is carried as the raw
32-bit pattern its four payload bytes spell.  The Python value is the
double this pattern widens to; widening is injective and value-preserving
except that a signaling NaN becomes the quiet NaN with the same payload,
so the pattern determines the Python value and `FLOAT.pack` of that value
is `quietf32` of the pattern (see `encodeNode`). -/
inductive RVal where
  | vint (v : Int)
  | vflt (bits : Nat)
  | vstr (s : List Nat)
  | vnone
  | vlist (vs : List RVal)

/-- `_read_node` of `read_reader`, reading `n` consecutive nodes.
`fuel` bounds the recursion; every recursive call decreases it, and the
entry point supplies more fuel than any input can consume (each node
consumes at least four bytes).  String reads that would run past the end
of the buffer are rejected here; in Python the slice is silently short
but the cursor still advances past the end, so the trailing
`assert_eq("reader end", len(data), offset, offset)` rejects the input
all the same. -/
def readN : Nat → Nat → List Nat → Option (List RVal × List Nat)
  | _, 0, bs => some ([], bs)
  | 0, _ + 1, _ => none
  | fuel + 1, n + 1, bs =>
    if 4 ≤ bs.length then
      if le32 (bs.take 4) = 1 then
        if 4 ≤ (bs.drop 4).length then
          match readN fuel n ((bs.drop 4).drop 4) with
          | some (vs, r2) =>
            some (.vint (Int.ofNat (le32 ((bs.drop 4).take 4))) :: vs, r2)
          | none => none
        else none
      else if le32 (bs.take 4) = 2 then
        if 4 ≤ (bs.drop 4).length then
          match readN fuel n ((bs.drop 4).drop 4) with
          | some (vs, r2) => some (.vflt (le32 ((bs.drop 4).take 4)) :: vs, r2)
          | none => none
        else none
      else if le32 (bs.take 4) = 3 then
        if 4 ≤ (bs.drop 4).length then
          if le32 ((bs.drop 4).take 4) ≤ ((bs.drop 4).drop 4).length ∧
              (((bs.drop 4).drop 4).take (le32 ((bs.drop 4).take 4))).all
                (fun b => decide (b < 128)) then
            match readN fuel n
                (((bs.drop 4).drop 4).drop (le32 ((bs.drop 4).take 4))) with
            | some (vs, r3) =>
              some (.vstr (((bs.drop 4).drop 4).take
                (le32 ((bs.drop 4).take 4))) :: vs, r3)
            | none => none
          else none
        else none
      else if le32 (bs.take 4) = 4 then
        if 4 ≤ (bs.drop 4).length then
          if le32 ((bs.drop 4).take 4) = 1 then
            match readN fuel n ((bs.drop 4).drop 4) with
            | some (vs, r3) => some (.vnone :: vs, r3)
            | none => none
          else
            match readN fuel ((le32 ((bs.drop 4).take 4) : Int) - 1).toNat
                ((bs.drop 4).drop 4) with
            | some (cs, r3) =>
              match readN fuel n r3 with
              | some (vs, r4) => some (.vlist cs :: vs, r4)
              | none => none
            | none => none
        else none
      else none
    else none

/-- `read_reader`: parse one root node and require the whole buffer to be
consumed (`assert_eq("reader end", ...)`). -/
def read_reader (bs : List Nat) : Option RVal :=
  match readN (bs.length + 1) 1 bs with
  | some ([v], rest) => if rest = [] then some v else none
  | _ => none

/-- The 32-bit pattern `FLOAT.pack` emits for the Python float decoded
from pattern `b`.  CPython's `struct` widens the single to a double on
unpack and narrows it back on pack; both conversions are bit-exact for
every finite value, infinity and quiet NaN, but a signaling NaN
(exponent 255, nonzero mantissa, bit 22 clear) is quietened — bit 22 is
set — already by the widening. -/
def quietf32 (b : Nat) : Nat :=
  if b / 2 ^ 23 % 256 = 255 ∧ b % 2 ^ 23 ≠ 0 ∧ b.testBit 22 = false then
    b + 2 ^ 22
  else b

mutual

/-- `_write_node` of `write_reader`.  `none` models the Python
exceptions: `struct.error` for an out-of-range `<I` pack and
`UnicodeEncodeError` for a non-ASCII string.  A float node packs as the
`quietf32` of its pattern: the float→double→float conversion pair of
unpack/pack quietens a signaling NaN. -/
def encodeNode : RVal → Option (List Nat)
  | .vint v =>
    if 0 ≤ v ∧ v < 4294967296 then some (le32inv 1 ++ le32inv v.toNat) else none
  | .vflt bits => some (le32inv 2 ++ le32inv (quietf32 bits))
  | .vstr s =>
    if s.all (fun b => decide (b < 128)) then
      some (le32inv 3 ++ le32inv s.length ++ s)
    else none
  | .vnone => some (le32inv 4 ++ le32inv 1)
  | .vlist vs =>
    match encodeList vs with
    | some body => some (le32inv 4 ++ le32inv (vs.length + 1) ++ body)
    | none => none
termination_by structural v => v

/-- Encode a list of sibling nodes in order. -/
def encodeList : List RVal → Option (List Nat)
  | [] => some []
  | v :: vs =>
    match encodeNode v, encodeList vs with
    | some a, some b => some (a ++ b)
    | _, _ => none
termination_by structural vs => vs

end

/-- `write_reader` serializes the root node. -/
def write_reader (v : RVal) : Option (List Nat) :=
  encodeNode v

/-- No sub-value is an empty list.  An empty Python list is produced
exactly by a stored list length prefix of 0 and re-encodes with prefix
1, breaking the round trip. -/
inductive NoEmpty : RVal → Prop where
  | vint (v : Int) : NoEmpty (.vint v)
  | vflt (bits : Nat) : NoEmpty (.vflt bits)
  | vstr (s : List Nat) : NoEmpty (.vstr s)
  | vnone : NoEmpty .vnone
  | vlist (vs : List RVal) (hne : vs ≠ []) (hall : ∀ v ∈ vs, NoEmpty v) :
      NoEmpty (.vlist vs)

/-- Every float node's stored pattern survives the float→double→float
conversion of unpack/pack unchanged — i.e. no float payload is a
signaling NaN. -/
inductive FltQuiet : RVal → Prop where
  | vint (v : Int) : FltQuiet (.vint v)
  | vflt (bits : Nat) (h : quietf32 bits = bits) : FltQuiet (.vflt bits)
  | vstr (s : List Nat) : FltQuiet (.vstr s)
  | vnone : FltQuiet .vnone
  | vlist (vs : List RVal) (hall : ∀ v ∈ vs, FltQuiet v) :
      FltQuiet (.vlist vs)

/-- The signed 32-bit interpretation of a four-byte little-endian payload.
This follows the specification text (type tag 1 is described there as a
signed 32-bit integer); the source decodes with the unsigned `<I` format. -/
def specSigned32 (bs : List Nat) : Int :=
  sint32 (le32 bs)

/-! ### Binary cursor (`src/mech3ax/parse/utils.py`, class `BinReader`) -/

/-- The cursor state: immutable data, current offset, offset of the most
recent read (`prev`). -/
structure BinReader where
  data : List Nat
  offset : Nat
  prev : Nat
deriving DecidableEq, Repr

/-- `BinReader.__init__`. -/
def BinReader.mk0 (data : List Nat) : BinReader :=
  ⟨data, 0, 0⟩

/-- `BinReader.read(struct)` for a struct of the given size:
`struct.unpack_from` is bounds-checked, then `prev`/`offset` advance. -/
def brRead (size : Nat) (r : BinReader) : Option (List Nat × BinReader) :=
  if r.offset + size ≤ r.data.length then
    some ((r.data.drop r.offset).take size, ⟨r.data, r.offset + size, r.offset⟩)
  else none

/-- `BinReader.read_bytes(length)`: no bounds check; the slice
`data[prev:offset]` is silently short when it runs past the end. -/
def brReadBytes (len : Nat) (r : BinReader) : List Nat × BinReader :=
  ((r.data.drop r.offset).take len, ⟨r.data, r.offset + len, r.offset⟩)

/-- `BinReader.read_string()`: a bounds-checked `read_u32` length followed
by an unchecked `read_bytes` whose result must decode as ASCII. -/
def brReadString (r : BinReader) : Option (List Nat × BinReader) :=
  match brRead 4 r with
  | some (w, r1) =>
    match brReadBytes (le32 w) r1 with
    | (s, r2) => if s.all (fun b => decide (b < 128)) then some (s, r2) else none
  | none => none

/-- One cursor operation of a parse trace. -/
inductive BROp where
  | readStruct (size : Nat)
  | readU32
  | readBytes (len : Nat)
  | readString
deriving DecidableEq, Repr

/-- Run one operation, keeping only the cursor state. -/
def brStep : BROp → BinReader → Option BinReader
  | .readStruct size, r => (brRead size r).map Prod.snd
  | .readU32, r => (brRead 4 r).map Prod.snd
  | .readBytes len, r => some (brReadBytes len r).2
  | .readString, r => (brReadString r).map Prod.snd

/-- Run a trace of cursor operations. -/
def brRun : List BROp → BinReader → Option BinReader
  | [], r => some r
  | op :: ops, r =>
    match brStep op r with
    | some r2 => brRun ops r2
    | none => none

/-- Operations whose reads are bounds-checked by `struct.unpack_from`
(`read` and `read_u32`, not `read_bytes` or `read_string`). -/
def boundsChecked : BROp → Bool
  | .readStruct _ => true
  | .readU32 => true
  | .readBytes _ => false
  | .readString => false

/-! ### Windows FILETIME (`src/mech3ax/parse/archive.py`) -/

/-- A decoded write time: either the raw tick count (kept when the count
is not a whole number of microseconds) or a `datetime`, represented by its
microsecond offset from the Windows epoch 1601-01-01 UTC. -/
inductive Filetime where
  | raw (t : Nat)
  | dt (micro : Nat)
deriving DecidableEq, Repr

/-- Microseconds from `datetime(1601, 1, 1)` to `datetime.max`
(9999-12-31 23:59:59.999999): 3067670 days plus 86399999999 μs.
Adding a larger `timedelta` to the epoch raises `OverflowError`. -/
def datetimeMaxMicro : Nat := 265046774399999999

/-- `filetime_to_datetime`.  `none` models the `OverflowError` raised by
`WINDOWS_EPOCH + timedelta(microseconds=micro)` when the result would
pass `datetime.max`. -/
def filetime_to_datetime (ft : Nat) : Option Filetime :=
  if ft = 0 then some (.dt 0)
  else if ft % 10 ≠ 0 then some (.raw ft)
  else if ft / 10 ≤ datetimeMaxMicro then some (.dt (ft / 10)) else none

/-- `datetime_to_filetime` (for `.dt 0`, the Windows epoch, the Python
special case returns 0, which agrees with the general formula). -/
def datetime_to_filetime : Filetime → Nat
  | .raw t => t
  | .dt micro => micro * 10

/-! ### Archive codec (`src/mech3ax/parse/archive.py`) -/

/-- One archive entry as produced by `read_archive`.  The name is kept as
its ASCII bytes. -/
structure ArchiveEntry where
  name : List Nat
  start : Nat
  data : List Nat
  flag : Nat
  comment : List Nat
  write_time : Filetime
deriving DecidableEq, Repr

/-- The Python exception kinds that matter to the archive parser. -/
inductive PyErr where
  | structError
  | valueError
  | unicodeError
  | archiveError
  | overflowError
deriving DecidableEq, Repr

/-- `ascii_zterm_padded` (`src/mech3ax/parse/utils.py`): the prefix up to
the first NUL; everything after it must be NUL (`ValueError` otherwise,
also when there is no NUL); the prefix must be ASCII
(`UnicodeDecodeError` otherwise). -/
def ascii_zterm_padded (buf : List Nat) : Except PyErr (List Nat) :=
  match buf.findIdx? (fun b => decide (b = 0)) with
  | none => .error .valueError
  | some i =>
    if (buf.drop i).all (fun b => decide (b = 0)) then
      if (buf.take i).all (fun b => decide (b < 128)) then .ok (buf.take i)
      else .error .unicodeError
    else .error .valueError

/-- Parse one 148-byte TOC entry at absolute offset `off`
(`<2I 64s I 64s Q`), in the order of the source: struct read, FILETIME
decode, name decode, then the lenient payload slice `data[start:end]`. -/
def parseEntry (data : List Nat) (off : Int) : Except PyErr ArchiveEntry :=
  match unpackAt data off 148 with
  | none => .error .structError
  | some w =>
    let start := le32 (w.take 4)
    let length := le32 ((w.drop 4).take 4)
    let rawName := (w.drop 8).take 64
    let flag := le32 ((w.drop 72).take 4)
    let comment := (w.drop 76).take 64
    let filetime := le64 ((w.drop 140).take 8)
    match filetime_to_datetime filetime with
    | none => .error .overflowError
    | some wt =>
      match ascii_zterm_padded rawName with
      | .error e => .error e
      | .ok name =>
        .ok ⟨name, start, (data.drop start).take length, flag, comment, wt⟩

/-- Read `n` TOC entries forward from `off`, 148 bytes apart. -/
def readEntries (data : List Nat) : Int → Nat → Except PyErr (List ArchiveEntry)
  | _, 0 => .ok []
  | off, n + 1 =>
    match parseEntry data off with
    | .error e => .error e
    | .ok e =>
      match readEntries data (off + 148) n with
      | .error e2 => .error e2
      | .ok es => .ok (e :: es)

/-- `read_archive`: footer `{version, count}` at `len - 8`, version must
be 1 (`Mech3ArchiveError` otherwise), then the TOC read forward from
`len - 8 - 148 * count`. -/
def read_archive (data : List Nat) : Except PyErr (List ArchiveEntry) :=
  match unpackAt data ((data.length : Int) - 8) 8 with
  | none => .error .structError
  | some w =>
    if le32 (w.take 4) = 1 then
      readEntries data ((data.length : Int) - 8 - 148 * (le32 ((w.drop 4).take 4)))
        (le32 ((w.drop 4).take 4))
    else .error .archiveError

/-- struct pack `64s`: pad with NUL to 64 bytes, truncating if longer. -/
def pack64s (s : List Nat) : List Nat :=
  s.take 64 ++ List.replicate (64 - s.length) 0

/-- Pack one TOC entry for `write_archive` at payload offset `off`.
`none` models `struct.error` for out-of-range integer fields and
`UnicodeEncodeError` for a non-ASCII name. -/
def packEntry (off : Nat) (e : ArchiveEntry) : Option (List Nat) :=
  let ft := datetime_to_filetime e.write_time
  if off < 2 ^ 32 ∧ e.data.length < 2 ^ 32 ∧ e.flag < 2 ^ 32 ∧ ft < 2 ^ 64 ∧
      e.name.all (fun b => decide (b < 128)) then
    some (le32inv off ++ le32inv e.data.length ++ pack64s e.name ++
      le32inv e.flag ++ pack64s e.comment ++ le64inv ft)
  else none

/-- The payload stream and TOC stream of `write_archive`, with the running
offset starting at `off`.  The `start` field of the entries is never
consulted; the TOC start offset is the running sum of payload lengths. -/
def writeEntries : List ArchiveEntry → Nat → Option (List Nat × List Nat)
  | [], _ => some ([], [])
  | e :: es, off =>
    match packEntry off e with
    | none => none
    | some toc1 =>
      match writeEntries es (off + e.data.length) with
      | none => none
      | some (pay, toc) => some (e.data ++ pay, toc1 ++ toc)

/-- `write_archive`: payloads front to back, then the TOC, then the footer
`{version = 1, count}`. -/
def write_archive (entries : List ArchiveEntry) : Option (List Nat) :=
  if entries.length < 2 ^ 32 then
    match writeEntries entries 0 with
    | none => none
    | some (pay, toc) =>
      some (pay ++ toc ++ le32inv 1 ++ le32inv entries.length)
  else none

/-- Fields of two archive entries other than `start` agree. -/
def sameExceptStart (a b : ArchiveEntry) : Prop :=
  a.name = b.name ∧ a.data = b.data ∧ a.flag = b.flag ∧
    a.comment = b.comment ∧ a.write_time = b.write_time

/-- Sum of the payload lengths of a list of entries. -/
def paySum (es : List ArchiveEntry) : Nat :=
  (es.map (fun e => e.data.length)).sum

/-! ### Motion codec (`src/mech3ax/parse/motion.py`) -/

/-- One part (bone) of a motion document: its ASCII name and its list of
(translation vec3, rotation quaternion) frame pairs.  Float components are
carried as raw 32-bit patterns.  The Python `Motion.parts` dict iterates
in insertion order, modelled as a list. -/
structure MotionPart where
  name : List Nat
  frames : List ((Nat × Nat × Nat) × (Nat × Nat × Nat × Nat))
deriving DecidableEq, Repr

/-- A motion document (`class Motion`). -/
structure Motion where
  frames : Nat
  loop_time : Nat
  parts : List MotionPart
deriving DecidableEq, Repr

/-- pack `<3f` of a vec3 of raw patterns. -/
def packVec3 (v : Nat × Nat × Nat) : List Nat :=
  le32inv v.1 ++ le32inv v.2.1 ++ le32inv v.2.2

/-- pack `<4f` of a quaternion of raw patterns. -/
def packQuat (q : Nat × Nat × Nat × Nat) : List Nat :=
  le32inv q.1 ++ le32inv q.2.1 ++ le32inv q.2.2.1 ++ le32inv q.2.2.2

/-- The per-part output of `write_motion`: length-prefixed name, the
constant flag 12, all translations, then all rotations.  `none` models
`UnicodeEncodeError`/`struct.error` for a non-ASCII or over-long name. -/
def writeParts : List MotionPart → Option (List Nat)
  | [] => some []
  | p :: ps =>
    if p.name.all (fun b => decide (b < 128)) ∧ p.name.length < 2 ^ 32 then
      match writeParts ps with
      | none => none
      | some rest =>
        some (le32inv p.name.length ++ p.name ++ le32inv 12 ++
          (p.frames.map (fun fr => packVec3 fr.1)).flatten ++
          (p.frames.map (fun fr => packQuat fr.2)).flatten ++ rest)
    else none

/-- `write_motion`: header `<I f 2I 2f` holding
`{version = 4, loop_time, frames - 1, part count, -1.0, 1.0}` followed by
the parts.  `none` models `struct.error` when `frames - 1` is out of the
`<I` range (a Python int, negative when `frames = 0`). -/
def write_motion (m : Motion) : Option (List Nat) :=
  if 1 ≤ m.frames ∧ m.frames - 1 < 2 ^ 32 ∧ m.parts.length < 2 ^ 32 then
    match writeParts m.parts with
    | none => none
    | some body =>
      some (le32inv 4 ++ le32inv m.loop_time ++ le32inv (m.frames - 1) ++
        le32inv m.parts.length ++ le32inv 3212836864 ++ le32inv 1065353216 ++ body)
  else none

/-- The on-disk size the specification predicts for one part with `n`
frames: `4 + |name| + 4 + 28 * n`. -/
def partSizeSpec (n : Nat) (p : MotionPart) : Nat :=
  4 + p.name.length + 4 + 28 * n

/-! ### IEEE-754 single precision values -/

/-- The numeric reading of a 32-bit pattern, as Python sees it after
`struct.unpack("<f", ...)`.  Every finite single-precision value is an
integer multiple of `2^-149`; `fin n` denotes the value `n / 2^149`
(an exact integer representation lets the kernel evaluate comparisons). -/
inductive FVal where
  | fin (scaled : Int)
  | pinf
  | ninf
  | nan
deriving DecidableEq, Repr

/-- The scaling denominator `2^149` of `FVal.fin`. -/
def f32scale : Int := 2 ^ 149

/-- Decode a single-precision bit pattern:
`(-1)^s * (2^23 + m) * 2^(e - 150)` for normal numbers (scaled:
`(2^23 + m) * 2^(e-1)`), `(-1)^s * m * 2^-149` for subnormals. -/
def f32Val (b : Nat) : FVal :=
  let s : Nat := b / 2 ^ 31 % 2
  let e : Nat := b / 2 ^ 23 % 256
  let m : Nat := b % 2 ^ 23
  if e = 255 then
    if m = 0 then (if s = 1 then .ninf else .pinf) else .nan
  else
    let mag : Nat := if e = 0 then m else (2 ^ 23 + m) * 2 ^ (e - 1)
    .fin (if s = 1 then -(mag : Int) else (mag : Int))

/-- The rational value of a finite `FVal`. -/
def FVal.q : FVal → Option ℚ
  | .fin n => some ((n : ℚ) / 2 ^ 149)
  | _ => none

/-- Python `==` on two float values (NaN equals nothing, `0.0 == -0.0`
because both decode to the same number). -/
def pyEq : FVal → FVal → Bool
  | .fin a, .fin b => decide (a = b)
  | .pinf, .pinf => true
  | .ninf, .ninf => true
  | _, _ => false

/-- Python `<` on two float values (false whenever NaN is involved). -/
def pyLt : FVal → FVal → Bool
  | .fin a, .fin b => decide (a < b)
  | .fin _, .pinf => true
  | .ninf, .fin _ => true
  | .ninf, .pinf => true
  | _, _ => false

/-- Python `>`. -/
def pyGt (a b : FVal) : Bool :=
  pyLt b a

/-- `assert_eq(name, c, actual, ...)` against a float constant, given as
its value scaled by `2^149`. -/
def fEqScaled (bits : Nat) (c : Int) : Bool :=
  pyEq (f32Val bits) (.fin c)

/-- `assert_eq(name, k, actual, ...)` comparing a Python int `k` with the
float field: true exactly when the float is finite with value `k`. -/
def fEqInt (k : Int) (bits : Nat) : Bool :=
  pyEq (f32Val bits) (.fin (k * f32scale))

/-- `assert_between(name, lo, hi, actual, ...)` with scaled rational
bounds: fails when `lo > actual or actual > hi`; NaN passes both
comparisons, so it is accepted. -/
def fBetween (lo : Int) (hi : Int) (bits : Nat) : Bool :=
  !pyGt (.fin lo) (f32Val bits) && !pyGt (f32Val bits) (.fin hi)

/-- Truncation toward zero of `n / 2^149`. -/
def truncScaled (n : Int) : Int :=
  if 0 ≤ n then ((n.toNat / 2 ^ 149 : Nat) : Int)
  else -(((-n).toNat / 2 ^ 149 : Nat) : Int)

/-- Python `int(x)` on a float: truncation toward zero; `OverflowError`
on infinities and `ValueError` on NaN, both modelled as `none`. -/
def pyInt (v : FVal) : Option Int :=
  match v with
  | .fin n => some (truncScaled n)
  | _ => none

/-! ### GameZ Object3D node body
(`src/mech3ax/parse/gamez/node_data_read.py`, `read_node_data_object3d`,
with `extract_zero_signs` from `src/mech3ax/parse/gamez/sign.py`).

The `OBJECT3D` struct and `Object3d` model these functions unpack into
come from a `mech3ax/parse/models.py` revision that is not in the source
tree (the copy present defines an incompatible 36-field layout, while
both the gamez reader and writer destructure 25 fields ending in a byte
blob).  Modelled from the spec and from the reader/writer usage:
`<I f 4f 3f 3f 3f 3f 3f 3f 42s` — flag, opacity, four zeros, rotation,
scale, the 3x3 matrix, translation, 42 zero bytes. -/

/-- The unpacked `OBJECT3D` fields; float fields are raw 32-bit
patterns. -/
structure Obj3dRaw where
  flag : Nat
  opacity : Nat
  zero008 : Nat
  zero012 : Nat
  zero016 : Nat
  zero020 : Nat
  rot_x : Nat
  rot_y : Nat
  rot_z : Nat
  scale_x : Nat
  scale_y : Nat
  scale_z : Nat
  matrix : List Nat
  trans_x : Nat
  trans_y : Nat
  trans_z : Nat
  zero096 : List Nat
deriving DecidableEq, Repr

/-- The decoded `Object3d` document node (rotation, translation and the
raw matrix are kept only when present; the matrix sign is the 9-bit
negative-zero mask). -/
structure Object3d where
  rotation : Option (Nat × Nat × Nat)
  translation : Option (Nat × Nat × Nat)
  matrix : Option (List Nat)
  matrix_sign : Nat
deriving DecidableEq, Repr

/-- A float is a negative zero exactly when `value == 0.0` and
`copysign(1.0, value) < 0.0` — i.e. the pattern is `0x80000000`. -/
def isNegZero (b : Nat) : Bool :=
  pyEq (f32Val b) (.fin 0) && b.testBit 31

/-- `extract_zero_signs`: bit `i` records that value `i` is `-0.0`. -/
def extract_zero_signs (values : List Nat) : Nat :=
  (List.range values.length).foldl
    (fun acc i => if isNegZero (values.getD i 0) then acc + 2 ^ i else acc) 0

/-- `apply_zero_signs`: flip the sign of every zero entry whose stored
sign disagrees with bit `i` of `signs`. -/
def apply_zero_signs (signs : Nat) (matrix : List Nat) : List Nat :=
  (List.range matrix.length).map fun i =>
    let b := matrix.getD i 0
    if pyEq (f32Val b) (.fin 0) then
      if signs.testBit i then 0x80000000 else 0
    else b

/-- `force_single_prec(pi)`: the single-precision value of π,
`13176795 / 2^22 ≈ 3.14159274`, scaled by `2^149`. -/
def piF32scaled : Int := 13176795 * 2 ^ 127

/-- `IDENTITY_MATRIX` as comparison targets, scaled by `2^149`. -/
def identityScaled : List Int :=
  [2 ^ 149, 0, 0, 0, 2 ^ 149, 0, 0, 0, 2 ^ 149]

/-- `_assert_matrix(expected)`: the nine `assert_eq` float comparisons of
the stored matrix against scaled expected values. -/
def matrixEqScaled (matrix : List Nat) (expected : List Int) : Bool :=
  matrix.length = 9 && expected.length = 9 &&
    (List.range 9).all fun i => pyEq (f32Val (matrix.getD i 0)) (.fin (expected.getD i 0))

/-- `read_node_data_object3d`.  `etm` is the external `euler_to_matrix`
helper (a platform-dependent numeric subroutine, out of scope for the
core), returning the nine expected values scaled by `2^149` (`.fin`) or
non-finite.  `none` models `Mech3ParseError`. -/
def read_node_data_object3d (etm : Nat → Nat → Nat → List FVal) (r : Obj3dRaw) :
    Option Object3d :=
  if (r.flag = 32 ∨ r.flag = 40) ∧ fEqScaled r.opacity 0 ∧
      fEqScaled r.zero008 0 ∧ fEqScaled r.zero012 0 ∧
      fEqScaled r.zero016 0 ∧ fEqScaled r.zero020 0 ∧
      fEqScaled r.scale_x (2 ^ 149) ∧ fEqScaled r.scale_y (2 ^ 149) ∧
      fEqScaled r.scale_z (2 ^ 149) ∧ r.matrix.length = 9 ∧
      r.zero096.all (fun b => decide (b = 0)) then
    if r.flag = 40 then
      if fEqScaled r.rot_x 0 ∧ fEqScaled r.rot_y 0 ∧ fEqScaled r.rot_z 0 ∧
          fEqScaled r.trans_x 0 ∧ fEqScaled r.trans_y 0 ∧ fEqScaled r.trans_z 0 ∧
          matrixEqScaled r.matrix identityScaled then
        some ⟨none, none, none, extract_zero_signs r.matrix⟩
      else none
    else
      if fBetween (-piF32scaled) piF32scaled r.rot_x ∧
          fBetween (-piF32scaled) piF32scaled r.rot_y ∧
          fBetween (-piF32scaled) piF32scaled r.rot_z then
        if r.matrix.length = 9 && (etm r.rot_x r.rot_y r.rot_z).length = 9 &&
            (List.range 9).all
              (fun i => pyEq (f32Val (r.matrix.getD i 0))
                ((etm r.rot_x r.rot_y r.rot_z).getD i .nan)) then
          some ⟨some (r.rot_x, r.rot_y, r.rot_z),
            some (r.trans_x, r.trans_y, r.trans_z), none,
            extract_zero_signs r.matrix⟩
        else
          some ⟨some (r.rot_x, r.rot_y, r.rot_z),
            some (r.trans_x, r.trans_y, r.trans_z), some r.matrix, 0⟩
      else none
  else none

/-! ### Texture codec (`src/mech3ax/parse/textures.py`,
`src/mech3ax/parse/colors/__init__.py`).

The RGB-565 ↔ RGB-888 conversions (`rgb565to888`, `rgb888to565`) are the
`colors._native` C extension (absent from the tree, with a pure Python
fallback); they and the PIL palette conversion are passed as parameters
`conv565`, `conv888`, `convPal` — every theorem below holds for any
instantiation. -/

/-- The mode of the decoded PIL image. -/
inductive ImgMode where
  | rgbM
  | pM
deriving DecidableEq, Repr

/-- A decoded image: dimensions, pixel bytes (RGB triples in `rgbM`,
palette indices in `pM`), and the alpha plane installed by `putalpha`. -/
structure Img where
  w : Nat
  h : Nat
  mode : ImgMode
  px : List Nat
  alpha : Option (List Nat)
deriving DecidableEq, Repr

/-- `DecodedTexture`. -/
structure DecodedTexture where
  name : List Nat
  image : Img
  flag : Nat
  stretch : Nat
  palette_count : Nat
  palette_data : Option (List Nat)
deriving DecidableEq, Repr

/-- `EncodedTexture` (the fields `write_textures` precomputes). -/
structure EncodedTexture where
  name : List Nat
  flag : Nat
  width : Nat
  height : Nat
  palette_count : Nat
  stretch : Nat
  image_data : List Nat
  alpha_data : Option (List Nat)
  palette_data : Option (List Nat)
deriving DecidableEq, Repr

/-- `simple_alpha565`: alpha 0 for 16-bit color 0, else 255. -/
def simple_alpha565 (colors : List Nat) : List Nat :=
  colors.map fun c => if c = 0 then 0 else 255

/-- Split bytes into little-endian 16-bit values (`unpack <nH`). -/
def toU16s : List Nat → List Nat
  | b0 :: b1 :: rest => (b0 + 256 * b1) :: toU16s rest
  | _ => []

/-- The two little-endian bytes of `v % 2^16` (pack `<H`). -/
def le16inv (v : Nat) : List Nat :=
  [v % 256, v / 256 % 256]

/-- Python truthiness of an optional byte string (`if alpha_data:`). -/
def truthy : Option (List Nat) → Bool
  | some (_ :: _) => true
  | _ => false

/-- `TEX_INFO.pack` (`<I 2H I 2H`); `none` is `struct.error` for
out-of-range fields. -/
def packTexInfo (flag width height palette_count stretch : Nat) :
    Option (List Nat) :=
  if flag < 2 ^ 32 ∧ width < 2 ^ 16 ∧ height < 2 ^ 16 ∧
      palette_count < 2 ^ 16 ∧ stretch < 2 ^ 16 then
    some (le32inv flag ++ le16inv width ++ le16inv height ++ le32inv 0 ++
      le16inv palette_count ++ le16inv stretch)
  else none

/-- `_validate_texture_info`: reserved word zero, `stretch < 4`, the flag
within the eight defined bits and nonzero, `BytesPerPixels2` set,
`UseGlobalPalette` clear. -/
def texInfoValid (flag zeroW stretch : Nat) : Bool :=
  zeroW = 0 && stretch < 4 && flag ≠ 0 && flag < 256 &&
    flag.testBit 0 && !flag.testBit 4

/-- `_read_texture`: decode one texture record at `off`.  `conv565` is
`rgb565to888` and `convPal` is PIL's palette-to-RGB conversion (both
external); stretching is not applied (`do_stretch=False`, as required for
repacking).  `none` models the parse/texture errors. -/
def read_texture (conv565 : List Nat → List Nat)
    (convPal : List Nat → List Nat → List Nat) (data : List Nat)
    (name : List Nat) (off : Nat) : Option (DecodedTexture × Nat) :=
  match unpackAt data off 16 with
  | none => none
  | some w16 =>
    let flag := le32 (w16.take 4)
    let width := le16 ((w16.drop 4).take 2)
    let height := le16 ((w16.drop 6).take 2)
    let zeroW := le32 ((w16.drop 8).take 4)
    let palette_count := le16 ((w16.drop 12).take 2)
    let stretch := le16 ((w16.drop 14).take 2)
    if texInfoValid flag zeroW stretch then
      let off1 := off + 16
      let size := width * height
      let full := flag.testBit 3
      let simple := flag.testBit 1 && !full
      if palette_count = 0 then
        match unpackAt data off1 (2 * size) with
        | none => none
        | some pixelBytes =>
          let pixels := toU16s pixelBytes
          let off2 := off1 + 2 * size
          let alpha0 : Option (List Nat) :=
            if simple then some (simple_alpha565 pixels) else none
          let image_data := conv565 pixelBytes
          let alpha1 : Option (List Nat) :=
            if full then some ((data.drop off2).take size) else alpha0
          let off3 := if full then off2 + size else off2
          -- Image.frombytes("RGB", ...) needs 3 bytes per pixel
          if 3 * size ≤ image_data.length then
            let img0 : Img := ⟨width, height, .rgbM, image_data.take (3 * size), none⟩
            match alpha1 with
            | some a =>
              if truthy (some a) then
                -- Image.frombytes("L", ...) needs one byte per pixel
                if size ≤ a.length then
                  some (⟨name, { img0 with alpha := some (a.take size) }, flag,
                    stretch, 0, none⟩, off3)
                else none
              else some (⟨name, img0, flag, stretch, 0, none⟩, off3)
            | none => some (⟨name, img0, flag, stretch, 0, none⟩, off3)
          else none
      else
        let image_data := (data.drop off1).take size
        if image_data.all (fun i => decide (i < palette_count)) && !simple then
          let off2 := off1 + size
          let alpha1 : Option (List Nat) :=
            if full then some ((data.drop off2).take size) else none
          let off3 := if full then off2 + size else off2
          match unpackAt data off3 (2 * palette_count) with
          | none => none
          | some colorBytes =>
            let off4 := off3 + 2 * palette_count
            let palette_data := conv565 colorBytes
            if truthy alpha1 then
              -- palette plus alpha: img.convert("RGB") then putalpha
              let rgbPx := convPal palette_data image_data
              match alpha1 with
              | some a =>
                if size ≤ a.length ∧ 3 * size ≤ rgbPx.length then
                  some (⟨name,
                    ⟨width, height, .rgbM, rgbPx.take (3 * size), some (a.take size)⟩,
                    flag, stretch, palette_count, some palette_data⟩, off4)
                else none
              | none => none
            else
              some (⟨name, ⟨width, height, .pM, image_data, none⟩, flag, stretch,
                palette_count, some palette_data⟩, off4)
        else none
    else none

/-- `rgb_to_palette`: map each RGB triple of the image to the index of its
first occurrence in the palette; `none` is the `Mech3TextureError` for a
color missing from the palette. -/
def rgb_to_palette (px palette : List Nat) : Option (List Nat) :=
  let triples := toTriples palette
  mapTriples (toTriples px) triples
where
  /-- Group bytes in threes. -/
  toTriples : List Nat → List (Nat × Nat × Nat)
    | r :: g :: b :: rest => (r, g, b) :: toTriples rest
    | _ => []
  /-- First index of each pixel triple in the palette. -/
  mapTriples (pxs : List (Nat × Nat × Nat)) (pal : List (Nat × Nat × Nat)) :
      Option (List Nat) :=
    match pxs with
    | [] => some []
    | t :: rest =>
      match pal.findIdx? (fun u => decide (u = t)) with
      | none => none
      | some i =>
        match mapTriples rest pal with
        | none => none
        | some is => some (i :: is)

/-- The encoding steps of `write_textures` and `_convert_textures` for one
texture.  `conv888` is `rgb888to565` (external). -/
def encodeTexture (conv888 : List Nat → List Nat) (t : DecodedTexture) :
    Option EncodedTexture :=
  -- mode dispatch: RGBA splits off the alpha plane, RGB and P have none
  let alphaSplit : Option (List Nat) :=
    match t.image.mode, t.image.alpha with
    | .rgbM, some a => some a
    | _, _ => none
  if !t.flag.testBit 0 then none  -- 2 bytes per pixel required
  else
    -- drop the simple/fake alpha
    let alpha_data := if t.flag.testBit 3 then alphaSplit else none
    let size := t.image.w * t.image.h
    let conv : Option (List Nat × Option (List Nat)) :=
      if t.palette_count ≠ 0 then
        match t.palette_data with
        | none => none
        | some pal =>
          if t.flag.testBit 3 then
            -- full alpha: image must be RGBA
            if t.image.mode = .rgbM ∧ t.image.alpha.isSome then
              match rgb_to_palette t.image.px pal with
              | none => none
              | some indices => some (indices, some (conv888 pal))
              else none
          else
            -- no alpha: image must be mode P; PIL pads the palette to 768
            if t.image.mode = .pM ∧ t.image.alpha.isNone then
              let padded := pal ++ List.replicate (768 - pal.length) 0
              some (t.image.px, some (conv888 (padded.take (3 * t.palette_count))))
            else none
      else
        -- no palette: mode must be RGBA exactly when HasAlpha
        if (t.image.mode = .rgbM ∧ t.image.alpha.isSome = t.flag.testBit 1) then
          some (conv888 t.image.px, none)
        else none
    match conv with
    | none => none
    | some (image_data, palette_data) =>
      -- in-range and length internal checks
      if (t.palette_count ≠ 0 →
            image_data.all (fun i => decide (i < t.palette_count))) ∧
          (t.palette_count = 0 → image_data.length = size * 2) then
        some ⟨t.name, t.flag, t.image.w, t.image.h, t.palette_count, t.stretch,
          image_data, alpha_data, palette_data⟩
      else none

/-- The body bytes `_write_encoded_textures` emits for one texture:
the 16-byte info, the image, then the alpha and palette planes only when
truthy.  `none` models `struct.error` and the explicit length checks. -/
def texRecord (t : EncodedTexture) : Option (List Nat) :=
  match packTexInfo t.flag t.width t.height t.palette_count t.stretch with
  | none => none
  | some info =>
    let size := t.width * t.height
    let lengthOk :=
      (if t.palette_count ≠ 0 then t.image_data.length = size
        else t.image_data.length = size * 2) ∧
      (t.flag.testBit 3 ↔ t.alpha_data.isSome) ∧
      (∀ a, t.alpha_data = some a → a.length = size) ∧
      ((t.palette_count ≠ 0) ↔ t.palette_data.isSome) ∧
      (∀ p, t.palette_data = some p → p.length = t.palette_count * 2)
    if lengthOk then
      some (info ++ t.image_data ++
        (if truthy t.alpha_data then t.alpha_data.getD [] else []) ++
        (if truthy t.palette_data then t.palette_data.getD [] else []))
    else none

/-! ### GameZ World node body and partition grid
(`src/mech3ax/parse/gamez/node_data_read.py`, `_read_node_data_world` and
`_read_partitions`; structs `WORLD`/`PARTITION` from
`src/mech3ax/parse/gamez/models.py`).

The check of partition field 52 against
`approx_sqrt(128*128 + ((unk32 - unk20) * 0.5)^2 + 128*128)` evaluates
IEEE-754 double-precision intermediate arithmetic; it is passed in as the
predicate `ack unk20 unk32 unk52`, and everything proved below holds for
every instantiation. -/

/-- Python `len(range(start, stop, step))` for `step ≠ 0`. -/
def pyRangeLen (start stop step : Int) : Nat :=
  if 0 < step then
    if start < stop then ((stop - start).toNat + step.toNat - 1) / step.toNat else 0
  else if step < 0 then
    if stop < start then ((start - stop).toNat + (-step).toNat - 1) / (-step).toNat
    else 0
  else 0

/-- Python `list(range(start, stop, step))` for `step ≠ 0`. -/
def pyRange (start stop step : Int) : List Int :=
  (List.range (pyRangeLen start stop step)).map fun k => start + step * k

/-- Field of a struct slice: the 32-bit word at byte offset `i`. -/
def fld (w : List Nat) (i : Nat) : Nat :=
  le32 ((w.drop i).take 4)

/-- Field of a struct slice: the 16-bit word at byte offset `i`. -/
def fld16 (w : List Nat) (i : Nat) : Nat :=
  le16 ((w.drop i).take 2)

/-- Split bytes into little-endian 32-bit values. -/
def toU32s : List Nat → List Nat
  | b0 :: b1 :: b2 :: b3 :: rest => le32 [b0, b1, b2, b3] :: toU32s rest
  | _ => []

/-- A partition cell (`class Partition`); the three unknown scalars are
kept as raw patterns. -/
structure Partition where
  x : Int
  y : Int
  nodes : List Nat
  unk : Nat × Nat × Nat
  ptr : Nat
deriving DecidableEq, Repr

/-- The decoded World node body (`class World`); `area` is
`(left, top, right, bottom)` as returned by the source. -/
structure World where
  area : Int × Int × Int × Int
  partitions : List (List Partition)
  children : List Nat
  area_partition_x_count : Nat
  area_partition_y_count : Nat
  fudge_count : Bool
  area_partition_ptr : Nat
  virt_partition_ptr : Nat
  children_ptr : Nat
  lights_ptr : Nat
deriving DecidableEq, Repr

/-- Parse one 72-byte `PARTITION` record (`<Ii 12f 2H 3I`) for the cell at
`(x, y)`, followed by its `count` node references. -/
def readPartition (ack : Nat → Nat → Nat → Bool) (data : List Nat) (off : Nat)
    (x y : Int) : Option (Partition × Nat) :=
  match unpackAt data off 72 with
  | none => none
  | some w =>
    if fld w 0 = 0x100 ∧ sint32 (fld w 4) = -1 ∧ fld16 w 56 = 0 ∧
        fld w 64 = 0 ∧ fld w 68 = 0 ∧
        fEqInt x (fld w 8) ∧ fEqInt y (fld w 12) ∧
        fEqInt x (fld w 16) ∧ fEqInt (y - 256) (fld w 24) ∧
        fEqInt (x + 256) (fld w 28) ∧ fEqInt y (fld w 36) ∧
        fEqInt (x + 128) (fld w 40) ∧ fEqInt (y - 128) (fld w 48) ∧
        ack (fld w 20) (fld w 32) (fld w 52) then
      if fld16 w 58 ≠ 0 then
        if fld w 60 ≠ 0 then
          match unpackAt data (off + 72) (4 * fld16 w 58) with
          | none => none
          | some nb =>
            some (⟨x, y, toU32s nb, (fld w 20, fld w 32, fld w 44), fld w 60⟩,
              off + 72 + 4 * fld16 w 58)
        else none
      else
        if fld w 60 = 0 then
          some (⟨x, y, [], (fld w 20, fld w 32, fld w 44), fld w 60⟩, off + 72)
        else none
    else none

/-- The inner loop of `_read_partitions`: one row at `y`, over `xs`. -/
def readRow (ack : Nat → Nat → Nat → Bool) (data : List Nat) (y : Int) :
    List Int → Nat → Option (List Partition × Nat)
  | [], off => some ([], off)
  | x :: xs, off =>
    match readPartition ack data off x y with
    | none => none
    | some (p, off2) =>
      match readRow ack data y xs off2 with
      | none => none
      | some (ps, off3) => some (p :: ps, off3)

/-- `_read_partitions`: rows over `ys`, columns over `xs`. -/
def readPartitions (ack : Nat → Nat → Nat → Bool) (data : List Nat)
    (xs : List Int) : List Int → Nat → Option (List (List Partition) × Nat)
  | [], off => some ([], off)
  | y :: ys, off =>
    match readRow ack data y xs off with
    | none => none
    | some (row, off2) =>
      match readPartitions ack data xs ys off2 with
      | none => none
      | some (rows, off3) => some (row :: rows, off3)

/-- `_read_node_data_world`: the 188-byte `WORLD` record, its child node
reference, then the partition grid. -/
def read_world (ack : Nat → Nat → Nat → Bool) (data : List Nat) (off : Nat) :
    Option (World × Nat) :=
  match unpackAt data off 188 with
  | none => none
  | some w =>
    match pyInt (f32Val (fld w 52)), pyInt (f32Val (fld w 56)),
        pyInt (f32Val (fld w 68)), pyInt (f32Val (fld w 72)) with
    | some al, some ab, some ar, some at' =>
      if fld w 0 = 0 ∧ fld w 16 = 1 ∧
          fEqScaled (fld w 20) 0 ∧ fEqScaled (fld w 24) 0 ∧
          fEqScaled (fld w 28) 0 ∧ fEqScaled (fld w 32) 0 ∧
          fEqScaled (fld w 36) 0 ∧ fEqScaled (fld w 40) 0 ∧
          fEqScaled (fld w 44) 0 ∧ fEqScaled (fld w 48) 0 then
        if fEqInt al (fld w 52) ∧ fEqInt ab (fld w 56) ∧
            fEqInt ar (fld w 68) ∧ fEqInt at' (fld w 72) ∧
            al < ar ∧ at' < ab ∧
            fEqInt (ar - al) (fld w 60) ∧ fEqInt (at' - ab) (fld w 64) then
          if fld w 76 = 16 ∧ fld w 80 = 1 ∧ fld w 84 = 1 ∧ fld w 88 = 1 ∧
              fEqInt 256 (fld w 100) ∧ fEqInt (-256) (fld w 104) ∧
              fEqInt 128 (fld w 108) ∧ fEqInt (-128) (fld w 112) ∧
              fEqScaled (fld w 116) (2 ^ 141) ∧
              fEqScaled (fld w 120) (-(2 ^ 141)) ∧
              fEqInt (-192) (fld w 124) ∧ fEqInt 3 (fld w 128) ∧
              fEqInt 3 (fld w 132) then
            if fld w 136 = (pyRange al ar 256).length ∧
                fld w 140 = (pyRange ab at' (-256)).length ∧ fld w 4 = 0 ∧
                (fld w 92 : Int) = ((pyRange al ar 256).length : Int) - 1 ∧
                (fld w 96 : Int) = ((pyRange ab at' (-256)).length : Int) - 1 ∧
                (pyRange al ar 256).length * (pyRange ab at' (-256)).length - 1 ≤
                  fld w 8 ∧
                fld w 8 ≤
                  (pyRange al ar 256).length * (pyRange ab at' (-256)).length ∧
                fld w 12 ≠ 0 ∧ fld w 144 ≠ 0 ∧
                fEqInt 1 (fld w 148) ∧ fEqInt 1 (fld w 152) ∧
                fEqInt 1 (fld w 156) ∧
                fld w 160 = 1 ∧ fld w 164 ≠ 0 ∧ fld w 168 ≠ 0 ∧
                fld w 172 = 0 ∧ fld w 176 = 0 ∧ fld w 180 = 0 ∧
                fld w 184 = 0 then
              match unpackAt data ((off : Int) + 188) 4 with
              | none => none
              | some child =>
                match readPartitions ack data (pyRange al ar 256)
                    (pyRange ab at' (-256)) (off + 192) with
                | none => none
                | some (parts, off2) =>
                  some (⟨(al, at', ar, ab), parts, [le32 child],
                    (pyRange al ar 256).length,
                    (pyRange ab at' (-256)).length,
                    decide (fld w 8 ≠
                      (pyRange al ar 256).length *
                        (pyRange ab at' (-256)).length),
                    fld w 12, fld w 144, fld w 164, fld w 168⟩,
                    off2)
            else none
          else none
        else none
      else none
    | _, _, _, _ => none

/-- A concrete 264-byte accepted `World` body (one partition cell),
used as a witness input: area rectangle `(0, 0, 256, 256)`. -/
def worldBytesEx : List Nat :=
  le32inv 0 ++ le32inv 0 ++ le32inv 1 ++ le32inv 1 ++ le32inv 1 ++
  le32inv 0 ++ le32inv 0 ++ le32inv 0 ++ le32inv 0 ++ le32inv 0 ++
  le32inv 0 ++ le32inv 0 ++ le32inv 0 ++
  le32inv 0 ++ le32inv 0x43800000 ++ le32inv 0x43800000 ++
  le32inv 0xC3800000 ++ le32inv 0x43800000 ++ le32inv 0 ++
  le32inv 16 ++ le32inv 1 ++ le32inv 1 ++ le32inv 1 ++ le32inv 0 ++
  le32inv 0 ++ le32inv 0x43800000 ++ le32inv 0xC3800000 ++
  le32inv 0x43000000 ++ le32inv 0xC3000000 ++ le32inv 0x3B800000 ++
  le32inv 0xBB800000 ++ le32inv 0xC3400000 ++ le32inv 0x40400000 ++
  le32inv 0x40400000 ++ le32inv 1 ++ le32inv 1 ++ le32inv 1 ++
  le32inv 0x3F800000 ++ le32inv 0x3F800000 ++ le32inv 0x3F800000 ++
  le32inv 1 ++ le32inv 1 ++ le32inv 1 ++ le32inv 0 ++ le32inv 0 ++
  le32inv 0 ++ le32inv 0 ++
  le32inv 7 ++
  le32inv 0x100 ++ le32inv 0xFFFFFFFF ++ le32inv 0 ++
  le32inv 0x43800000 ++ le32inv 0 ++ le32inv 0 ++ le32inv 0 ++
  le32inv 0x43800000 ++ le32inv 0 ++ le32inv 0x43800000 ++
  le32inv 0x43000000 ++ le32inv 0 ++ le32inv 0x43000000 ++ le32inv 0 ++
  le16inv 0 ++ le16inv 0 ++ le32inv 0 ++ le32inv 0 ++ le32inv 0

/-- The decoded document of `worldBytesEx`. -/
def worldEx : World :=
  ⟨(0, 0, 256, 256), [[⟨0, 256, [], (0, 0, 0), 0⟩]], [7], 1, 1,
    false, 1, 1, 1, 1⟩

/-- A concrete 18-byte texture record: flag 3 (`BytesPerPixels2 ∧
HasAlpha`), 1×1, no palette, one black pixel. -/
def texBytesEx : List Nat :=
  le32inv 3 ++ le16inv 1 ++ le16inv 1 ++ le32inv 0 ++ le16inv 0 ++
  le16inv 0 ++ [0, 0]

/-- The decoded document of `texBytesEx` (with the oracle
`conv565 = fun _ => [0, 0, 0]`): a simple-alpha plane of one 0 byte. -/
def texEx : DecodedTexture :=
  ⟨[97], ⟨1, 1, .rgbM, [0, 0, 0], some [0]⟩, 3, 0, 0, none⟩

/-! ## Theorems -/

/-! ### Generic byte lemmas -/

theorem getD_lt256 (bs : List Nat) (h : ∀ b ∈ bs, b < 256) (i : Nat) :
    bs.getD i 0 < 256 := by
  induction bs generalizing i with
  | nil => simp [List.getD]
  | cons a t ih =>
    cases i with
    | zero => simpa using h a (by simp)
    | succ j =>
      simp only [List.getD_cons_succ]
      exact ih (fun b hb => h b (List.mem_cons_of_mem _ hb)) j

theorem le32_lt (bs : List Nat) (h : ∀ b ∈ bs, b < 256) : le32 bs < 2 ^ 32 := by
  have h0 := getD_lt256 bs h 0
  have h1 := getD_lt256 bs h 1
  have h2 := getD_lt256 bs h 2
  have h3 := getD_lt256 bs h 3
  simp only [le32]
  omega

theorem le32inv_le32_take (bs : List Nat) (h4 : 4 ≤ bs.length)
    (hb : ∀ x ∈ bs, x < 256) : le32inv (le32 (bs.take 4)) = bs.take 4 := by
  rcases bs with _ | ⟨a, _ | ⟨b, _ | ⟨c, _ | ⟨d, t⟩⟩⟩⟩ <;> simp at h4
  have ha : a < 256 := hb a (by simp)
  have hbb : b < 256 := hb b (by simp)
  have hc : c < 256 := hb c (by simp)
  have hd : d < 256 := hb d (by simp)
  simp only [List.take, le32, le32inv, List.getD, List.get?, Option.getD]
  simp only [List.cons.injEq, and_true]
  refine ⟨?_, ?_, ?_, ?_⟩ <;> omega

theorem le32inv_length (v : Nat) : (le32inv v).length = 4 := by
  simp [le32inv]

theorem le32inv_lt256 (v : Nat) : ∀ b ∈ le32inv v, b < 256 := by
  intro b hbm
  simp only [le32inv, List.mem_cons, List.not_mem_nil, or_false] at hbm
  rcases hbm with h | h | h | h <;> subst h <;> omega

theorem le32_le32inv (v : Nat) (h : v < 2 ^ 32) : le32 (le32inv v) = v := by
  simp only [le32inv, le32, List.getD, List.get?, Option.getD]
  omega

theorem encodeNode_vint (v : Int) (h : 0 ≤ v ∧ v < 4294967296) :
    encodeNode (.vint v) = some (le32inv 1 ++ le32inv v.toNat) := by
  rw [encodeNode, if_pos h]

theorem encodeNode_vflt (bits : Nat) :
    encodeNode (.vflt bits) = some (le32inv 2 ++ le32inv (quietf32 bits)) := by
  rw [encodeNode]

theorem encodeNode_vstr (s : List Nat)
    (h : s.all (fun b => decide (b < 128)) = true) :
    encodeNode (.vstr s) = some (le32inv 3 ++ le32inv s.length ++ s) := by
  rw [encodeNode, if_pos h]

theorem encodeNode_vnone : encodeNode .vnone = some (le32inv 4 ++ le32inv 1) := by
  rw [encodeNode]

theorem encodeNode_vlist (vs : List RVal) (body : List Nat)
    (h : encodeList vs = some body) :
    encodeNode (.vlist vs) =
      some (le32inv 4 ++ le32inv (vs.length + 1) ++ body) := by
  rw [encodeNode, h]

theorem encodeList_cons (v : RVal) (vs : List RVal) (a b : List Nat)
    (hv : encodeNode v = some a) (hvs : encodeList vs = some b) :
    encodeList (v :: vs) = some (a ++ b) := by
  rw [encodeList, hv, hvs]

/-! ### C6: FILETIME decoding -/

/-- C6, counterexample: the tick count 2650467744000000000 is divisible
by 10 and fits in 64 bits, yet `filetime_to_datetime` does not return a
datetime — the microsecond count exceeds `datetime.max`, so the Python
code raises `OverflowError` instead. -/
theorem filetime_overflow_cex :
    2650467744000000000 % 10 = 0 ∧ (2650467744000000000 : Nat) < 2 ^ 64 ∧
    filetime_to_datetime 2650467744000000000 = none := by
  refine ⟨by norm_num, by norm_num, by decide⟩

/-- C6 (amended): for tick counts `t` divisible by 10 whose microsecond
count `t / 10` is within the `datetime` range, `filetime_to_datetime`
returns the UTC datetime `epoch + t / 10 μs` and the round trip
`datetime_to_filetime (filetime_to_datetime t) = t` holds; for `t` not
divisible by 10 the raw integer is returned unchanged (also a round
trip); divisible-by-10 counts beyond the datetime range raise
`OverflowError`. -/
theorem filetime_amended (t : Nat) :
    (t % 10 = 0 → t / 10 ≤ datetimeMaxMicro →
      filetime_to_datetime t = some (.dt (t / 10)) ∧
      datetime_to_filetime (.dt (t / 10)) = t) ∧
    (t % 10 ≠ 0 → filetime_to_datetime t = some (.raw t) ∧
      datetime_to_filetime (.raw t) = t) ∧
    (t % 10 = 0 → datetimeMaxMicro < t / 10 →
      filetime_to_datetime t = none) := by
  refine ⟨fun hmod hle => ⟨?_, ?_⟩, fun hmod => ⟨?_, rfl⟩, fun hmod hgt => ?_⟩
  · by_cases h0 : t = 0
    · subst h0; rfl
    · simp [filetime_to_datetime, h0, hmod, hle]
  · simp only [datetime_to_filetime]
    exact Nat.div_mul_cancel (Nat.dvd_of_mod_eq_zero hmod)
  · have h0 : t ≠ 0 := by
      intro h; rw [h] at hmod; simp at hmod
    simp [filetime_to_datetime, h0, hmod]
  · have h0 : t ≠ 0 := by
      intro h; rw [h] at hgt; simp [datetimeMaxMicro] at hgt
    simp [filetime_to_datetime, h0, hmod, Nat.not_le.mpr hgt]

/-- C6, witness at `t = 20`. -/
theorem filetime_amended_witness :
    filetime_to_datetime 20 = some (.dt 2) ∧
    datetime_to_filetime (.dt 2) = 20 :=
  (filetime_amended 20).1 (by norm_num) (by norm_num [datetimeMaxMicro])

/-! ### C4: reader-tree integer nodes -/

/-- C4, counterexample: the payload `FF FF FF FF` decodes to the Python
int 4294967295 (the unsigned `<I` reading), not to the signed 32-bit
value −1 the claim describes. -/
theorem reader_int_signed_cex :
    read_reader [1, 0, 0, 0, 255, 255, 255, 255] = some (.vint 4294967295) ∧
    specSigned32 [255, 255, 255, 255] = -1 ∧
    (4294967295 : Int) ≠ specSigned32 [255, 255, 255, 255] := by
  refine ⟨by rfl, by decide, by decide⟩

/-- C4 (amended): a type-tag-1 node decodes to the unsigned little-endian
32-bit value of its 4-byte payload, and encoding an integer node in
`[0, 2^32)` writes tag 1 followed by exactly that 4-byte payload. -/
theorem reader_int_unsigned_amended :
    (∀ (fuel : Nat) (p0 p1 p2 p3 : Nat) (rest : List Nat),
      readN (fuel + 1) 1 (1 :: 0 :: 0 :: 0 :: p0 :: p1 :: p2 :: p3 :: rest) =
        some ([.vint (Int.ofNat (le32 [p0, p1, p2, p3]))], rest)) ∧
    (∀ v : Int, 0 ≤ v → v < 2 ^ 32 →
      write_reader (.vint v) = some (1 :: 0 :: 0 :: 0 :: le32inv v.toNat) ∧
      (le32 (le32inv v.toNat) : Int) = v) := by
  constructor
  · intro fuel p0 p1 p2 p3 rest
    simp [readN, le32, le32inv]
  · intro v h0 hlt
    constructor
    · rw [write_reader, encodeNode_vint v ⟨h0, by exact_mod_cast hlt⟩]
      simp [le32inv]
    · rw [le32_le32inv]
      · exact Int.toNat_of_nonneg h0
      · have : (v.toNat : Int) < 2 ^ 32 := by
          rwa [Int.toNat_of_nonneg h0]
        exact_mod_cast this

/-- C4, witness: decode at payload `2A 00 00 00` and encode 42. -/
theorem reader_int_unsigned_witness :
    readN 1 1 [1, 0, 0, 0, 42, 0, 0, 0] = some ([.vint 42], []) ∧
    write_reader (.vint 42) = some [1, 0, 0, 0, 42, 0, 0, 0] := by
  constructor
  · exact reader_int_unsigned_amended.1 0 42 0 0 0 []
  · have h := (reader_int_unsigned_amended.2 42 (by norm_num) (by norm_num)).1
    simpa [le32inv] using h

/-! ### C3: binary cursor invariants -/

/-- C3, counterexample: a successful `read_string` on the buffer
`[5, 0, 0, 0]` (length prefix 5 with no bytes after it) leaves the cursor
offset at 9, beyond the 4-byte buffer — `read_bytes` does not bounds-check
and the silently-short slice decodes as ASCII. -/
theorem binreader_offset_cex :
    brRun [.readString] (.mk0 [5, 0, 0, 0]) = some ⟨[5, 0, 0, 0], 9, 4⟩ ∧
    ¬((9 : Nat) ≤ ([5, 0, 0, 0] : List Nat).length) := by
  refine ⟨by rfl, by norm_num⟩

/-- C3 (amended): (a) along a successful parse that uses only the
bounds-checked reads (`read`, `read_u32`), the offset never exceeds the
buffer length at any intermediate point — `read_bytes`/`read_string` can
push it past the end; (b) after `read`, `read_u32` and `read_bytes` the
`prev` field equals the offset at which the read began and
`offset = prev + size`; after `read_string`, `prev` is where its
`read_bytes` began and `offset = prev + length`. -/
theorem binreader_invariants_amended :
    (∀ (ops : List BROp) (data : List Nat) (s : BinReader),
      ops.all boundsChecked = true →
      brRun ops (.mk0 data) = some s →
      ∀ (pre suf : List BROp), ops = pre ++ suf →
        ∀ s', brRun pre (.mk0 data) = some s' → s'.offset ≤ data.length) ∧
    (∀ (size : Nat) (r r' : BinReader) (v : List Nat),
      brRead size r = some (v, r') →
      r'.prev = r.offset ∧ r'.offset = r'.prev + size) ∧
    (∀ (len : Nat) (r : BinReader),
      (brReadBytes len r).2.prev = r.offset ∧
      (brReadBytes len r).2.offset = r.offset + len) ∧
    (∀ (r r' : BinReader) (v : List Nat),
      brReadString r = some (v, r') →
      r'.prev = r.offset + 4 ∧
      r'.offset = r'.prev + le32 ((r.data.drop r.offset).take 4)) := by
  have hstep : ∀ (op : BROp) (r r' : BinReader), boundsChecked op = true →
      brStep op r = some r' →
      r'.data = r.data ∧ r'.offset ≤ r.data.length := by
    intro op r r' hbc hs
    cases op with
    | readStruct size =>
      simp only [brStep, brRead] at hs
      split at hs
      · cases hs
        refine ⟨rfl, ?_⟩
        show r.offset + size ≤ r.data.length
        omega
      · simp at hs
    | readU32 =>
      simp only [brStep, brRead] at hs
      split at hs
      · cases hs
        refine ⟨rfl, ?_⟩
        show r.offset + 4 ≤ r.data.length
        omega
      · simp at hs
    | readBytes len => simp [boundsChecked] at hbc
    | readString => simp [boundsChecked] at hbc
  have hrun : ∀ (pre : List BROp) (r : BinReader) (s' : BinReader),
      pre.all boundsChecked = true → brRun pre r = some s' →
      r.offset ≤ r.data.length →
      s'.data = r.data ∧ s'.offset ≤ r.data.length := by
    intro pre
    induction pre with
    | nil =>
      intro r s' _ hs hle
      simp only [brRun] at hs
      cases hs
      exact ⟨rfl, hle⟩
    | cons op ops ih =>
      intro r s' hall hs hle
      simp only [List.all_cons, Bool.and_eq_true] at hall
      simp only [brRun] at hs
      rcases hm : brStep op r with _ | r2
      · rw [hm] at hs; simp at hs
      · rw [hm] at hs
        obtain ⟨hd, ho⟩ := hstep op r r2 hall.1 hm
        obtain ⟨hd2, ho2⟩ := ih r2 s' hall.2 hs (by rw [hd]; exact ho)
        exact ⟨by rw [hd2, hd], by rwa [hd] at ho2⟩
  refine ⟨?_, ?_, ?_, ?_⟩
  · intro ops data s hall _hs pre suf heq s' hpre
    have hpreall : pre.all boundsChecked = true := by
      rw [heq, List.all_append, Bool.and_eq_true] at hall
      exact hall.1
    have := hrun pre (.mk0 data) s' hpreall hpre (by simp [BinReader.mk0])
    simpa [BinReader.mk0] using this.2
  · intro size r r' v hs
    simp only [brRead] at hs
    split at hs
    · cases hs; exact ⟨rfl, rfl⟩
    · simp at hs
  · intro len r
    simp [brReadBytes]
  · intro r r' v hs
    rw [brReadString] at hs
    rcases hbr : brRead 4 r with _ | ⟨w, r1⟩ <;> rw [hbr] at hs
    · simp at hs
    · simp only [brRead] at hbr
      split at hbr
      · simp only [Option.some.injEq, Prod.mk.injEq] at hbr
        obtain ⟨hw, hr1⟩ := hbr
        subst hw
        subst hr1
        simp only [brReadBytes] at hs
        split at hs
        · cases hs
          exact ⟨rfl, rfl⟩
        · simp at hs
      · simp at hbr

/-- C3, witness: a one-operation bounds-checked trace on a 4-byte buffer,
with the resulting offset 4 within bounds. -/
theorem binreader_invariants_witness :
    brRun [BROp.readU32] (.mk0 [1, 2, 3, 4]) = some ⟨[1, 2, 3, 4], 4, 0⟩ ∧
    (4 : Nat) ≤ ([1, 2, 3, 4] : List Nat).length :=
  ⟨by rfl,
    binreader_invariants_amended.1 [BROp.readU32] [1, 2, 3, 4]
      ⟨[1, 2, 3, 4], 4, 0⟩ (by rfl) (by rfl) [BROp.readU32] [] (by rfl)
      ⟨[1, 2, 3, 4], 4, 0⟩ (by rfl)⟩

/-! ### List helper lemmas -/

theorem pack64s_length (s : List Nat) : (pack64s s).length = 64 := by
  simp only [pack64s, List.length_append, List.length_take, List.length_replicate]
  omega

theorem le32inv_append_drop (v : Nat) (b : List Nat) (k : Nat) :
    (le32inv v ++ b).drop (4 + k) = b.drop k := by
  have h : 4 + k = k + 1 + 1 + 1 + 1 := by omega
  simp [le32inv, h]

theorem le32inv_append_take (v : Nat) (b : List Nat) :
    (le32inv v ++ b).take 4 = le32inv v := by
  simp [le32inv]

theorem flatten_const_length {α : Type} (l : List α) (f : α → List Nat) (c : Nat)
    (h : ∀ x ∈ l, (f x).length = c) :
    ((l.map f).flatten).length = c * l.length := by
  induction l with
  | nil => simp
  | cons a t ih =>
    simp only [List.map_cons, List.flatten_cons, List.length_append,
      List.length_cons]
    rw [h a (by simp), ih (fun x hx => h x (List.mem_cons_of_mem _ hx))]
    ring

/-! ### C10: `write_archive` ignores `start` and recomputes offsets -/

theorem packEntry_congr (a b : ArchiveEntry) (h : sameExceptStart a b)
    (off : Nat) : packEntry off a = packEntry off b := by
  obtain ⟨hn, hd, hf, hc, hw⟩ := h
  simp only [packEntry, hn, hd, hf, hc, hw]

theorem packEntry_shape (off : Nat) (e : ArchiveEntry) (t : List Nat)
    (h : packEntry off e = some t) :
    t.length = 148 ∧ t.take 4 = le32inv off := by
  simp only [packEntry] at h
  split at h
  · cases h
    constructor
    · simp only [List.length_append, le32inv, le64inv, List.length_cons,
        List.length_nil, pack64s_length]
      try omega
    · simp only [List.append_assoc]
      rw [le32inv_append_take]
  · simp at h

theorem writeEntries_congr (xs ys : List ArchiveEntry)
    (h : List.Forall₂ sameExceptStart xs ys) :
    ∀ off, writeEntries xs off = writeEntries ys off := by
  induction h with
  | nil => intro off; rfl
  | cons hr ht ih =>
    intro off
    simp only [writeEntries]
    rw [packEntry_congr _ _ hr off, hr.2.1, ih]

theorem paySum_cons (e : ArchiveEntry) (es : List ArchiveEntry) :
    paySum (e :: es) = e.data.length + paySum es := by
  simp [paySum]

theorem writeEntries_toc (xs : List ArchiveEntry) :
    ∀ (off : Nat) (pay toc : List Nat), writeEntries xs off = some (pay, toc) →
      pay = (xs.map fun e => e.data).flatten ∧
      ∀ i, i < xs.length →
        (toc.drop (148 * i)).take 4 = le32inv (off + paySum (xs.take i)) := by
  induction xs with
  | nil =>
    intro off pay toc h
    simp only [writeEntries] at h
    cases h
    exact ⟨by simp, fun i hi => by simp at hi⟩
  | cons e es ih =>
    intro off pay toc h
    simp only [writeEntries] at h
    rcases hp : packEntry off e with _ | t <;> rw [hp] at h
    · simp at h
    · rcases hw : writeEntries es (off + e.data.length) with _ | ⟨pay2, toc2⟩ <;>
        rw [hw] at h
      · simp at h
      · cases h
        obtain ⟨hpay, htoc⟩ := ih (off + e.data.length) pay2 toc2 hw
        obtain ⟨hlen, hhead⟩ := packEntry_shape off e t hp
        constructor
        · simp [hpay]
        · intro i hi
          cases i with
          | zero =>
            simp only [Nat.mul_zero, List.drop_zero, List.take_zero, paySum,
              List.map_nil, List.sum_nil, Nat.add_zero]
            rw [List.take_append_of_le_length (by omega)]
            rw [show (4 : Nat) = min 4 t.length by omega] at hhead ⊢
            exact hhead
          | succ j =>
            have hd : (t ++ toc2).drop (148 * (j + 1)) = toc2.drop (148 * j) := by
              have h148 : 148 * (j + 1) = t.length + 148 * j := by
                rw [hlen]; ring
              rw [h148, List.drop_append]
            rw [hd]
            have := htoc j (by simpa using hi)
            rw [this, List.take_succ_cons]
            congr 1
            rw [paySum_cons]
            omega

/-- C10: the byte stream of `write_archive` does not depend on any
entry's `start` field — entry sequences that agree except on `start`
write identically — and on success the output is
payloads ++ TOC ++ footer where the TOC start field of entry `i` is the
sum of the payload lengths of entries `0..i-1`. -/
theorem write_archive_start_independent :
    (∀ (xs ys : List ArchiveEntry), List.Forall₂ sameExceptStart xs ys →
      write_archive xs = write_archive ys) ∧
    (∀ (xs : List ArchiveEntry) (out : List Nat), write_archive xs = some out →
      ∃ pay toc, writeEntries xs 0 = some (pay, toc) ∧
        out = pay ++ toc ++ le32inv 1 ++ le32inv xs.length ∧
        pay = (xs.map fun e => e.data).flatten ∧
        ∀ i, i < xs.length →
          (toc.drop (148 * i)).take 4 = le32inv (paySum (xs.take i))) := by
  constructor
  · intro xs ys h
    simp only [write_archive]
    rw [writeEntries_congr xs ys h 0, h.length_eq]
  · intro xs out h
    rw [write_archive] at h
    split at h
    · rcases hw : writeEntries xs 0 with _ | ⟨pay, toc⟩ <;> rw [hw] at h
      · simp at h
      · cases h
        obtain ⟨hpay, htoc⟩ := writeEntries_toc xs 0 pay toc hw
        exact ⟨pay, toc, rfl, by simp, hpay, fun i hi => by
          simpa using htoc i hi⟩
    · simp at h

/-- C10, witness: two singleton archives differing only in `start`
(5 vs 99) produce identical bytes. -/
theorem write_archive_start_independent_witness :
    write_archive [⟨[65], 5, [7], 0, [], .raw 3⟩] =
      write_archive [⟨[65], 99, [7], 0, [], .raw 3⟩] ∧ (5 : Nat) ≠ 99 :=
  ⟨write_archive_start_independent.1 _ _
      (List.Forall₂.cons ⟨rfl, rfl, rfl, rfl, rfl⟩ List.Forall₂.nil),
    by decide⟩

/-! ### C7: motion on-disk size -/

theorem packVec3_length (v : Nat × Nat × Nat) : (packVec3 v).length = 12 := by
  simp [packVec3, le32inv]

theorem packQuat_length (q : Nat × Nat × Nat × Nat) : (packQuat q).length = 16 := by
  simp [packQuat, le32inv]

theorem writeParts_length (n : Nat) (ps : List MotionPart) (body : List Nat)
    (h : writeParts ps = some body) (hf : ∀ p ∈ ps, p.frames.length = n) :
    body.length = (ps.map (partSizeSpec n)).sum := by
  induction ps generalizing body with
  | nil =>
    simp only [writeParts] at h
    cases h
    simp
  | cons p ps ih =>
    simp only [writeParts] at h
    split at h
    · rcases hw : writeParts ps with _ | rest <;> rw [hw] at h
      · simp at h
      · cases h
        have hrest := ih rest hw (fun q hq => hf q (List.mem_cons_of_mem _ hq))
        have htr : ((p.frames.map fun fr => packVec3 fr.1).flatten).length =
            12 * p.frames.length :=
          flatten_const_length _ _ 12 (fun x _ => packVec3_length x.1)
        have hro : ((p.frames.map fun fr => packQuat fr.2).flatten).length =
            16 * p.frames.length :=
          flatten_const_length _ _ 16 (fun x _ => packQuat_length x.2)
        simp only [List.length_append, le32inv, List.length_cons, List.length_nil,
          htr, hro, hrest, List.map_cons, List.sum_cons]
        rw [hf p (by simp)]
        simp only [partSizeSpec]
        ring
    · simp at h

/-- C7: for a motion document with `frames = n ≥ 1` in which every part
has exactly `n` frame pairs, `write_motion` emits exactly
`24 + Σ_parts (4 + |name| + 4 + 28 n)` bytes, and bytes 8..11 of the
header hold `n - 1` (the frame count stored decremented by one). -/
theorem motion_size (m : Motion) (out : List Nat)
    (hw : write_motion m = some out)
    (hf : ∀ p ∈ m.parts, p.frames.length = m.frames) :
    out.length = 24 + ((m.parts.map (partSizeSpec m.frames)).sum) ∧
    (out.drop 8).take 4 = le32inv (m.frames - 1) := by
  simp only [write_motion] at hw
  split at hw
  · rcases hb : writeParts m.parts with _ | body <;> rw [hb] at hw
    · simp at hw
    · cases hw
      have hbl := writeParts_length m.frames m.parts body hb hf
      constructor
      · simp only [List.length_append, le32inv, List.length_cons, List.length_nil,
          hbl]
        try omega
      · simp only [List.append_assoc]
        rw [show (8 : Nat) = 4 + 4 by rfl, le32inv_append_drop,
          show (4 : Nat) = 4 + 0 by rfl, le32inv_append_drop, List.drop_zero,
          le32inv_append_take]
  · simp at hw

/-- C7, witness: the spec scenario S4 — one bone `"a"`, two frames —
totals 24 + (4 + 1 + 4 + 56) = 89 bytes with stored frame count 1. -/
theorem motion_size_witness :
    (le32inv 4 ++ le32inv 0x3F800000 ++ le32inv 1 ++ le32inv 1 ++
        le32inv 3212836864 ++ le32inv 1065353216 ++ le32inv 1 ++ [97] ++
        le32inv 12 ++ (packVec3 (0, 0, 0) ++ packVec3 (0x3F800000, 0, 0)) ++
        (packQuat (0x3F800000, 0, 0, 0) ++
          packQuat (0x3F800000, 0, 0, 0))).length = 89 := by
  have h := motion_size
    ⟨2, 0x3F800000, [⟨[97], [((0, 0, 0), (0x3F800000, 0, 0, 0)),
      ((0x3F800000, 0, 0), (0x3F800000, 0, 0, 0))]⟩]⟩
    (le32inv 4 ++ le32inv 0x3F800000 ++ le32inv 1 ++ le32inv 1 ++
      le32inv 3212836864 ++ le32inv 1065353216 ++ (le32inv 1 ++ [97] ++
      le32inv 12 ++ (packVec3 (0, 0, 0) ++ packVec3 (0x3F800000, 0, 0)) ++
      ((packQuat (0x3F800000, 0, 0, 0) ++
        packQuat (0x3F800000, 0, 0, 0)) ++ [])))
    (by decide) (by decide)
  have h1 := h.1
  rw [show (24 + (([⟨[97], [((0, 0, 0), (0x3F800000, 0, 0, 0)),
      ((0x3F800000, 0, 0), (0x3F800000, 0, 0, 0))]⟩] :
      List MotionPart).map (partSizeSpec 2)).sum) = 89 by decide] at h1
  simpa using h1

/-! ### C2: archive parse failures -/

theorem ascii_zterm_padded_err (buf : List Nat) (e : PyErr)
    (h : ascii_zterm_padded buf = .error e) :
    e = .valueError ∨ e = .unicodeError := by
  rw [ascii_zterm_padded] at h
  rcases hidx : buf.findIdx? (fun b => decide (b = 0)) with _ | i <;>
    simp only [hidx] at h
  · left
    simpa using h.symm
  · split at h
    · split at h
      · cases h
      · right
        simpa using h.symm
    · left
      simpa using h.symm

theorem parseEntry_no_archive (data : List Nat) (off : Int) :
    parseEntry data off ≠ .error .archiveError := by
  intro h
  rw [parseEntry] at h
  rcases hu : unpackAt data off 148 with _ | w <;> simp only [hu] at h
  · simp at h
  · rcases hf : filetime_to_datetime (le64 ((w.drop 140).take 8)) with _ | wt <;>
      simp only [hf] at h
    · simp at h
    · rcases ha : ascii_zterm_padded ((w.drop 8).take 64) with e | nm <;>
        simp only [ha] at h
      · have he : e = .archiveError := by simpa using h
        rw [he] at ha
        rcases ascii_zterm_padded_err _ _ ha with h1 | h1 <;> cases h1
      · simp at h

theorem readEntries_no_archive (data : List Nat) :
    ∀ (n : Nat) (off : Int), readEntries data off n ≠ .error .archiveError := by
  intro n
  induction n with
  | zero => intro off h; cases h
  | succ k ih =>
    intro off h
    rw [readEntries] at h
    rcases hp : parseEntry data off with e | entry <;> simp only [hp] at h
    · have he : e = .archiveError := by simpa using h
      rw [he] at hp
      exact parseEntry_no_archive data off hp
    · rcases hr : readEntries data (off + 148) k with e2 | es <;>
        simp only [hr] at h
      · have he : e2 = .archiveError := by simpa using h
        rw [he] at hr
        exact ih (off + 148) hr
      · simp at h

theorem readEntries_length (data : List Nat) :
    ∀ (n : Nat) (off : Int) (es : List ArchiveEntry),
      readEntries data off n = .ok es → es.length = n := by
  intro n
  induction n with
  | zero =>
    intro off es h
    cases h
    rfl
  | succ k ih =>
    intro off es h
    rw [readEntries] at h
    rcases hp : parseEntry data off with e | entry <;> simp only [hp] at h
    · simp at h
    · rcases hr : readEntries data (off + 148) k with e2 | tail <;>
        simp only [hr] at h
      · simp at h
      · have : entry :: tail = es := by simpa using h
        rw [← this]
        simp [ih (off + 148) tail hr]

/-- C2, counterexample: a 156-byte archive whose single TOC entry claims
payload bytes 200..205, outside the 156-byte buffer.  The claim says this
fails with an `ArchiveError`; in fact `read_archive` succeeds — Python
slicing silently truncates the payload to empty. -/
theorem read_archive_oob_cex :
    read_archive (le32inv 200 ++ le32inv 5 ++ (65 :: List.replicate 63 0) ++
        le32inv 0 ++ List.replicate 64 0 ++ le64inv 0 ++ le32inv 1 ++
        le32inv 1) =
      .ok [⟨[65], 200, [], 0, List.replicate 64 0, .dt 0⟩] ∧
    (le32inv 200 ++ le32inv 5 ++ (65 :: List.replicate 63 0) ++ le32inv 0 ++
        List.replicate 64 0 ++ le64inv 0 ++ le32inv 1 ++
        le32inv 1).length < 200 + 5 := by
  exact ⟨by rfl, by decide⟩

/-- C2 (amended): `read_archive` fails with `ArchiveError` exactly on a
footer version other than 1: (a) a readable footer with version ≠ 1 gives
`ArchiveError`; (b) on success the entry list has exactly one entry per
TOC record (the footer count); (c) every `ArchiveError` it returns is the
version error — a malformed name raises `ValueError`/`UnicodeDecodeError`
instead, and an out-of-bounds payload slice does not fail at all (the
payload is silently truncated, see the counterexample). -/
theorem read_archive_errors_amended :
    (∀ (data w : List Nat),
      unpackAt data ((data.length : Int) - 8) 8 = some w →
      le32 (w.take 4) ≠ 1 → read_archive data = .error .archiveError) ∧
    (∀ (data : List Nat) (es : List ArchiveEntry),
      read_archive data = .ok es →
      ∃ w, unpackAt data ((data.length : Int) - 8) 8 = some w ∧
        le32 (w.take 4) = 1 ∧ es.length = le32 ((w.drop 4).take 4)) ∧
    (∀ data : List Nat, read_archive data = .error .archiveError →
      ∃ w, unpackAt data ((data.length : Int) - 8) 8 = some w ∧
        le32 (w.take 4) ≠ 1) := by
  refine ⟨?_, ?_, ?_⟩
  · intro data w hu hv
    rw [read_archive]
    simp only [hu]
    rw [if_neg hv]
  · intro data es h
    rw [read_archive] at h
    rcases hu : unpackAt data ((data.length : Int) - 8) 8 with _ | w <;>
      simp only [hu] at h
    · cases h
    · split at h
      · exact ⟨w, rfl, by assumption, readEntries_length data _ _ es h⟩
      · cases h
  · intro data h
    rw [read_archive] at h
    rcases hu : unpackAt data ((data.length : Int) - 8) 8 with _ | w <;>
      simp only [hu] at h
    · cases h
    · split at h
      · exact absurd h (readEntries_no_archive data _ _)
      · exact ⟨w, rfl, by assumption⟩

/-- C2, witness: an 8-byte file whose footer version is 2 fails with
`ArchiveError`. -/
theorem read_archive_errors_witness :
    read_archive [2, 0, 0, 0, 0, 0, 0, 0] = .error .archiveError :=
  read_archive_errors_amended.1 [2, 0, 0, 0, 0, 0, 0, 0]
    [2, 0, 0, 0, 0, 0, 0, 0] (by rfl) (by decide)

/-! ### C1: reader-tree round trip -/

theorem mem_drop_lt (bs : List Nat) (h : ∀ b ∈ bs, b < 256) (k : Nat) :
    ∀ b ∈ bs.drop k, b < 256 :=
  fun b hb => h b (List.mem_of_mem_drop hb)

/-- Parsing `n` nodes returns `n` values, and — when no decoded list is
empty, no float payload is a signaling NaN, and the input is made of
bytes — re-encoding the values reproduces exactly the consumed bytes. -/
theorem readN_spec : ∀ (fuel n : Nat) (bs : List Nat) (vs : List RVal)
    (rest : List Nat), readN fuel n bs = some (vs, rest) →
    vs.length = n ∧
    ((∀ v ∈ vs, NoEmpty v) → (∀ v ∈ vs, FltQuiet v) → (∀ b ∈ bs, b < 256) →
      ∃ enc, encodeList vs = some enc ∧ enc ++ rest = bs) := by
  intro fuel
  induction fuel with
  | zero =>
    intro n bs vs rest h
    cases n with
    | zero =>
      simp only [readN, Option.some.injEq, Prod.mk.injEq] at h
      obtain ⟨h1, h2⟩ := h
      subst h1; subst h2
      exact ⟨rfl, fun _ _ _ => ⟨[], rfl, rfl⟩⟩
    | succ n => rw [readN] at h; cases h
  | succ fuel ih =>
    intro n bs vs rest h
    cases n with
    | zero =>
      simp only [readN, Option.some.injEq, Prod.mk.injEq] at h
      obtain ⟨h1, h2⟩ := h
      subst h1; subst h2
      exact ⟨rfl, fun _ _ _ => ⟨[], rfl, rfl⟩⟩
    | succ n =>
      rw [readN] at h
      by_cases h4 : 4 ≤ bs.length
      case neg => rw [if_neg h4] at h; cases h
      rw [if_pos h4] at h
      by_cases ht1 : le32 (bs.take 4) = 1
      · -- Int node
        rw [if_pos ht1] at h
        by_cases h44 : 4 ≤ (bs.drop 4).length
        case neg => rw [if_neg h44] at h; cases h
        rw [if_pos h44] at h
        rcases hr : readN fuel n ((bs.drop 4).drop 4) with _ | ⟨vs', r2⟩ <;>
          simp only [hr] at h
        · cases h
        · obtain ⟨hv, hrest⟩ : RVal.vint (Int.ofNat (le32 ((bs.drop 4).take 4)))
              :: vs' = vs ∧ r2 = rest := by simpa using h
          subst hv; subst hrest
          obtain ⟨hlen, henc⟩ := ih n ((bs.drop 4).drop 4) vs' r2 hr
          refine ⟨by simp [hlen], fun hne hq hb => ?_⟩
          have hne' : ∀ v ∈ vs', NoEmpty v :=
            fun v hv => hne v (List.mem_cons_of_mem _ hv)
          have hq' : ∀ v ∈ vs', FltQuiet v :=
            fun v hv => hq v (List.mem_cons_of_mem _ hv)
          obtain ⟨encT, hencT, happ⟩ :=
            henc hne' hq' (mem_drop_lt _ (mem_drop_lt _ hb 4) 4)
          have hx : le32 ((bs.drop 4).take 4) < 2 ^ 32 :=
            le32_lt _ (fun b hbm =>
              mem_drop_lt _ hb 4 b (List.mem_of_mem_take hbm))
          refine ⟨(le32inv 1 ++ le32inv (le32 ((bs.drop 4).take 4))) ++ encT,
            ?_, ?_⟩
          · have hx2 : le32 ((bs.drop 4).take 4) < 4294967296 := by
              norm_num at hx
              exact hx
            have hcond : (0 : Int) ≤ Int.ofNat (le32 ((bs.drop 4).take 4)) ∧
                Int.ofNat (le32 ((bs.drop 4).take 4)) < 4294967296 := by
              constructor
              · exact Int.ofNat_nonneg _
              · show ((le32 ((bs.drop 4).take 4) : Nat) : Int) < 4294967296
                exact_mod_cast hx2
            have hnode := encodeNode_vint _ hcond
            simp only [Int.toNat_ofNat] at hnode
            exact encodeList_cons _ _ _ _ hnode hencT
          · have e1 : le32inv 1 = bs.take 4 := by
              rw [← ht1]; exact le32inv_le32_take bs h4 hb
            have e2 : le32inv (le32 ((bs.drop 4).take 4)) = (bs.drop 4).take 4 :=
              le32inv_le32_take (bs.drop 4) h44 (mem_drop_lt _ hb 4)
            rw [e1, e2]
            conv_rhs => rw [← List.take_append_drop 4 bs,
              ← List.take_append_drop 4 (bs.drop 4)]
            simp [List.append_assoc, happ]
      · rw [if_neg ht1] at h
        by_cases ht2 : le32 (bs.take 4) = 2
        · -- Float node
          rw [if_pos ht2] at h
          by_cases h44 : 4 ≤ (bs.drop 4).length
          case neg => rw [if_neg h44] at h; cases h
          rw [if_pos h44] at h
          rcases hr : readN fuel n ((bs.drop 4).drop 4) with _ | ⟨vs', r2⟩ <;>
            simp only [hr] at h
          · cases h
          · obtain ⟨hv, hrest⟩ : RVal.vflt (le32 ((bs.drop 4).take 4)) :: vs' = vs
                ∧ r2 = rest := by simpa using h
            subst hv; subst hrest
            obtain ⟨hlen, henc⟩ := ih n ((bs.drop 4).drop 4) vs' r2 hr
            refine ⟨by simp [hlen], fun hne hq hb => ?_⟩
            have hne' : ∀ v ∈ vs', NoEmpty v :=
              fun v hv => hne v (List.mem_cons_of_mem _ hv)
            have hq' : ∀ v ∈ vs', FltQuiet v :=
              fun v hv => hq v (List.mem_cons_of_mem _ hv)
            have hquiet : quietf32 (le32 ((bs.drop 4).take 4)) =
                le32 ((bs.drop 4).take 4) := by
              have hl := hq _ (List.mem_cons_self _ _)
              cases hl with
              | vflt _ hqb => exact hqb
            obtain ⟨encT, hencT, happ⟩ :=
              henc hne' hq' (mem_drop_lt _ (mem_drop_lt _ hb 4) 4)
            refine ⟨(le32inv 2 ++ le32inv (le32 ((bs.drop 4).take 4))) ++ encT,
              ?_, ?_⟩
            · have hnode := encodeNode_vflt (le32 ((bs.drop 4).take 4))
              rw [hquiet] at hnode
              exact encodeList_cons _ _ _ _ hnode hencT
            · have e1 : le32inv 2 = bs.take 4 := by
                rw [← ht2]; exact le32inv_le32_take bs h4 hb
              have e2 : le32inv (le32 ((bs.drop 4).take 4)) =
                  (bs.drop 4).take 4 :=
                le32inv_le32_take (bs.drop 4) h44 (mem_drop_lt _ hb 4)
              rw [e1, e2]
              conv_rhs => rw [← List.take_append_drop 4 bs,
                ← List.take_append_drop 4 (bs.drop 4)]
              simp [List.append_assoc, happ]
        · rw [if_neg ht2] at h
          by_cases ht3 : le32 (bs.take 4) = 3
          · -- String node
            rw [if_pos ht3] at h
            by_cases h44 : 4 ≤ (bs.drop 4).length
            case neg => rw [if_neg h44] at h; cases h
            rw [if_pos h44] at h
            by_cases hstr : le32 ((bs.drop 4).take 4) ≤
                ((bs.drop 4).drop 4).length ∧
                (((bs.drop 4).drop 4).take (le32 ((bs.drop 4).take 4))).all
                  (fun b => decide (b < 128)) = true
            case neg =>
              rw [if_neg (by simpa using hstr)] at h; cases h
            rw [if_pos (by simpa using hstr)] at h
            rcases hr : readN fuel n
                (((bs.drop 4).drop 4).drop (le32 ((bs.drop 4).take 4))) with
              _ | ⟨vs', r3⟩ <;> simp only [hr] at h
            · cases h
            · obtain ⟨hv, hrest⟩ : RVal.vstr (((bs.drop 4).drop 4).take
                  (le32 ((bs.drop 4).take 4))) :: vs' = vs ∧ r3 = rest := by
                simpa using h
              subst hv; subst hrest
              obtain ⟨hlen, henc⟩ := ih n _ vs' r3 hr
              refine ⟨by simp [hlen], fun hne hq hb => ?_⟩
              have hne' : ∀ v ∈ vs', NoEmpty v :=
                fun v hv => hne v (List.mem_cons_of_mem _ hv)
              have hq' : ∀ v ∈ vs', FltQuiet v :=
                fun v hv => hq v (List.mem_cons_of_mem _ hv)
              obtain ⟨encT, hencT, happ⟩ := henc hne' hq'
                (mem_drop_lt _ (mem_drop_lt _ (mem_drop_lt _ hb 4) 4) _)
              have hslen : (((bs.drop 4).drop 4).take
                  (le32 ((bs.drop 4).take 4))).length =
                  le32 ((bs.drop 4).take 4) := by
                rw [List.length_take]
                exact Nat.min_eq_left hstr.1
              refine ⟨(le32inv 3 ++ le32inv (le32 ((bs.drop 4).take 4)) ++
                ((bs.drop 4).drop 4).take (le32 ((bs.drop 4).take 4))) ++ encT,
                ?_, ?_⟩
              · have hnode := encodeNode_vstr _ hstr.2
                rw [hslen] at hnode
                exact encodeList_cons _ _ _ _ hnode hencT
              · have e1 : le32inv 3 = bs.take 4 := by
                  rw [← ht3]; exact le32inv_le32_take bs h4 hb
                have e2 : le32inv (le32 ((bs.drop 4).take 4)) =
                    (bs.drop 4).take 4 :=
                  le32inv_le32_take (bs.drop 4) h44 (mem_drop_lt _ hb 4)
                rw [e1, e2]
                conv_rhs => rw [← List.take_append_drop 4 bs,
                  ← List.take_append_drop 4 (bs.drop 4),
                  ← List.take_append_drop (le32 ((bs.drop 4).take 4))
                    ((bs.drop 4).drop 4)]
                simp [List.append_assoc, happ]
          · rw [if_neg ht3] at h
            by_cases ht4 : le32 (bs.take 4) = 4
            case neg => rw [if_neg ht4] at h; cases h
            rw [if_pos ht4] at h
            by_cases h44 : 4 ≤ (bs.drop 4).length
            case neg => rw [if_neg h44] at h; cases h
            rw [if_pos h44] at h
            by_cases hc1 : le32 ((bs.drop 4).take 4) = 1
            · -- "no value" node (stored count 1)
              rw [if_pos hc1] at h
              rcases hr : readN fuel n ((bs.drop 4).drop 4) with _ | ⟨vs', r3⟩ <;>
                simp only [hr] at h
              · cases h
              · obtain ⟨hv, hrest⟩ : RVal.vnone :: vs' = vs ∧ r3 = rest := by
                  simpa using h
                subst hv; subst hrest
                obtain ⟨hlen, henc⟩ := ih n ((bs.drop 4).drop 4) vs' r3 hr
                refine ⟨by simp [hlen], fun hne hq hb => ?_⟩
                have hne' : ∀ v ∈ vs', NoEmpty v :=
                  fun v hv => hne v (List.mem_cons_of_mem _ hv)
                have hq' : ∀ v ∈ vs', FltQuiet v :=
                  fun v hv => hq v (List.mem_cons_of_mem _ hv)
                obtain ⟨encT, hencT, happ⟩ :=
                  henc hne' hq' (mem_drop_lt _ (mem_drop_lt _ hb 4) 4)
                refine ⟨(le32inv 4 ++ le32inv 1) ++ encT, ?_, ?_⟩
                · exact encodeList_cons _ _ _ _ encodeNode_vnone hencT
                · have e1 : le32inv 4 = bs.take 4 := by
                    have he := le32inv_le32_take bs h4 hb
                    rw [ht4] at he
                    exact he
                  have e2 : le32inv 1 = (bs.drop 4).take 4 := by
                    have he := le32inv_le32_take (bs.drop 4) h44 (mem_drop_lt _ hb 4)
                    rw [hc1] at he
                    exact he
                  rw [e1, e2]
                  conv_rhs => rw [← List.take_append_drop 4 bs,
                    ← List.take_append_drop 4 (bs.drop 4)]
                  simp [List.append_assoc, happ]
            · -- list node (stored count ≠ 1)
              rw [if_neg hc1] at h
              rcases hcs : readN fuel ((le32 ((bs.drop 4).take 4) : Int) - 1).toNat
                  ((bs.drop 4).drop 4) with _ | ⟨cs, r3⟩ <;> simp only [hcs] at h
              · cases h
              · rcases hr : readN fuel n r3 with _ | ⟨vs', r4⟩ <;>
                  simp only [hr] at h
                · cases h
                · obtain ⟨hv, hrest⟩ : RVal.vlist cs :: vs' = vs ∧ r4 = rest := by
                    simpa using h
                  subst hv; subst hrest
                  obtain ⟨hclen, hcenc⟩ := ih _ ((bs.drop 4).drop 4) cs r3 hcs
                  obtain ⟨hlen, henc⟩ := ih n r3 vs' r4 hr
                  refine ⟨by simp [hlen], fun hne hq hb => ?_⟩
                  have hnes : ∀ v ∈ vs', NoEmpty v :=
                    fun v hv => hne v (List.mem_cons_of_mem _ hv)
                  have hqs : ∀ v ∈ vs', FltQuiet v :=
                    fun v hv => hq v (List.mem_cons_of_mem _ hv)
                  have hcne : cs ≠ [] ∧ ∀ c ∈ cs, NoEmpty c := by
                    have hl := hne _ (List.mem_cons_self _ _)
                    cases hl with
                    | vlist _ hcsne hcall => exact ⟨hcsne, hcall⟩
                  have hcq : ∀ c ∈ cs, FltQuiet c := by
                    have hl := hq _ (List.mem_cons_self _ _)
                    cases hl with
                    | vlist _ hcall => exact hcall
                  obtain ⟨encC, hencC, happC⟩ :=
                    hcenc hcne.2 hcq (mem_drop_lt _ (mem_drop_lt _ hb 4) 4)
                  have hbr3 : ∀ b ∈ r3, b < 256 := by
                    intro b hbm
                    have : b ∈ (bs.drop 4).drop 4 := by
                      rw [← happC]
                      exact List.mem_append_right _ hbm
                    exact mem_drop_lt _ (mem_drop_lt _ hb 4) 4 b this
                  obtain ⟨encT, hencT, happ⟩ := henc hnes hqs hbr3
                  have hcpos : 1 ≤ le32 ((bs.drop 4).take 4) := by
                    rcases Nat.eq_zero_or_pos (le32 ((bs.drop 4).take 4)) with
                      h0 | hp
                    · exfalso
                      rw [h0] at hclen
                      simp at hclen
                      exact hcne.1 hclen
                    · exact hp
                  have hcount : cs.length + 1 = le32 ((bs.drop 4).take 4) := by
                    rw [hclen]
                    omega
                  refine ⟨(le32inv 4 ++ le32inv (cs.length + 1) ++ encC) ++ encT,
                    ?_, ?_⟩
                  · exact encodeList_cons _ _ _ _ (encodeNode_vlist _ _ hencC) hencT
                  · have e1 : le32inv 4 = bs.take 4 := by
                      have he := le32inv_le32_take bs h4 hb
                      rw [ht4] at he
                      exact he
                    have e2 : le32inv (cs.length + 1) = (bs.drop 4).take 4 := by
                      rw [hcount]
                      exact le32inv_le32_take (bs.drop 4) h44 (mem_drop_lt _ hb 4)
                    rw [e1, e2]
                    conv_rhs => rw [← List.take_append_drop 4 bs,
                      ← List.take_append_drop 4 (bs.drop 4), ← happC]
                    simp [List.append_assoc, happ]

theorem encodeList_one_inv (v : RVal) (enc : List Nat)
    (h : encodeList [v] = some enc) : encodeNode v = some enc := by
  rw [encodeList, encodeList] at h
  cases hv : encodeNode v with
  | none => simp only [hv] at h; exact h
  | some a =>
    simp only [hv, List.append_nil, Option.some.injEq] at h
    rw [h]

/-- C1, counterexample: the universal bit-for-bit round trip fails for
the reader family on two accepted inputs.  (a) The buffer
`04 00 00 00 00 00 00 00` (a list node with stored count 0) decodes to
the empty Python list, but `write_reader` re-encodes the empty list with
stored count `len + 1 = 1`.  (b) The buffer `02 00 00 00 01 00 80 7F`
(a float node whose payload `0x7F800001` is a signaling NaN) decodes,
but unpack's float→double conversion quietens the NaN and `FLOAT.pack`
re-emits `01 00 C0 7F` (`0x7FC00001`). -/
theorem reader_roundtrip_cex :
    (read_reader [4, 0, 0, 0, 0, 0, 0, 0] = some (.vlist []) ∧
      write_reader (.vlist []) = some [4, 0, 0, 0, 1, 0, 0, 0] ∧
      [4, 0, 0, 0, 1, 0, 0, 0] ≠ [4, 0, 0, 0, 0, 0, 0, 0]) ∧
    (read_reader [2, 0, 0, 0, 0x01, 0x00, 0x80, 0x7F] =
        some (.vflt 0x7F800001) ∧
      write_reader (.vflt 0x7F800001) =
        some [2, 0, 0, 0, 0x01, 0x00, 0xC0, 0x7F] ∧
      [2, 0, 0, 0, 0x01, 0x00, 0xC0, 0x7F] ≠
        [2, 0, 0, 0, 0x01, 0x00, 0x80, 0x7F]) :=
  ⟨⟨rfl, rfl, by decide⟩, ⟨rfl, rfl, by decide⟩⟩

/-- C1 (amended): the reader round trip does hold on every accepted
input made of bytes whose decoded document contains no empty list and no
signaling-NaN float payload: if `read_reader bs = some v`, no sub-value
of `v` is `[]` and every float pattern in `v` is fixed by `quietf32`,
then `write_reader v = some bs`. -/
theorem reader_roundtrip_amended (bs : List Nat) (v : RVal)
    (hb : ∀ b ∈ bs, b < 256) (hne : NoEmpty v) (hq : FltQuiet v)
    (h : read_reader bs = some v) :
    write_reader v = some bs := by
  unfold read_reader at h
  rcases hr : readN (bs.length + 1) 1 bs with _ | ⟨vs, rest⟩
  · rw [hr] at h; cases h
  · obtain ⟨hlen, henc⟩ := readN_spec _ _ _ _ _ hr
    match vs, hlen with
    | [v0], _ =>
      simp only [hr] at h
      by_cases hrest : rest = []
      case neg => rw [if_neg hrest] at h; cases h
      rw [if_pos hrest] at h
      obtain rfl : v0 = v := by simpa using h
      subst hrest
      obtain ⟨enc, hencL, happ⟩ := henc
        (fun w hw => by
          have : w = v0 := by simpa using hw
          rw [this]; exact hne)
        (fun w hw => by
          have : w = v0 := by simpa using hw
          rw [this]; exact hq) hb
      rw [List.append_nil] at happ
      rw [write_reader, encodeList_one_inv v0 enc hencL, happ]

/-- C1, witness: the 8-byte float node `02 00 00 00 00 00 80 3F`
(pattern `0x3F800000`, the value 1.0, not a signaling NaN) decodes and
re-encodes to the same bytes. -/
theorem reader_roundtrip_amended_witness :
    read_reader [2, 0, 0, 0, 0, 0, 128, 63] = some (.vflt 0x3F800000) ∧
    write_reader (.vflt 0x3F800000) = some [2, 0, 0, 0, 0, 0, 128, 63] :=
  ⟨rfl, reader_roundtrip_amended [2, 0, 0, 0, 0, 0, 128, 63]
    (.vflt 0x3F800000) (by decide) (NoEmpty.vflt _)
    (FltQuiet.vflt _ (by decide)) rfl⟩

/-! ### C5: Object3D node body -/

/-- C5, counterexample: a flag-32 body whose `rot_x` bit pattern is NaN
(`0x7FC00000`) is accepted — `assert_between` tests `lo > v or v > hi`
with Python comparisons and NaN fails neither — although NaN does not lie
in the open interval `(-π, π)`; moreover the matrix comparison against
`euler_to_matrix` fails here (the oracle returns all-`1.0`), the raw
matrix is retained, and the emitted zero-sign mask is `0` even though
matrix entry 0 carries `-0.0`: on comparison failure the mask is cleared
rather than recording the negative zeros. -/
theorem object3d_rotation_cex :
    read_node_data_object3d (fun _ _ _ => List.replicate 9 (.fin (2 ^ 149)))
        ⟨32, 0, 0, 0, 0, 0, 0x7FC00000, 0, 0, 0x3F800000, 0x3F800000,
          0x3F800000, [0x80000000, 0, 0, 0, 0, 0, 0, 0, 0],
          0, 0, 0, List.replicate 42 0⟩ =
      some ⟨some (0x7FC00000, 0, 0), some (0, 0, 0),
        some [0x80000000, 0, 0, 0, 0, 0, 0, 0, 0], 0⟩ ∧
    f32Val 0x7FC00000 = .nan ∧
    isNegZero 0x80000000 = true ∧
    extract_zero_signs [0x80000000, 0, 0, 0, 0, 0, 0, 0, 0] = 1 := by
  exact ⟨by decide, by decide, by decide, by decide⟩

/-- C5 (amended): every accepted Object3D body has flag 32 or 40 and unit
scale; with flag 40 rotation/translation are zero, the matrix is the
identity and the node keeps the zero-sign mask; with flag 32 each rotation
component passes the INCLUSIVE float bound `[-π_f32, π_f32]` (NaN also
passes), rotation/translation are kept, and either the recomputation
matched (matrix dropped, mask = `extract_zero_signs`) or it did not
(raw matrix retained, mask = 0). -/
theorem object3d_amended (etm : Nat → Nat → Nat → List FVal) (r : Obj3dRaw)
    (o : Object3d) (h : read_node_data_object3d etm r = some o) :
    (r.flag = 32 ∨ r.flag = 40) ∧
    fEqScaled r.scale_x (2 ^ 149) = true ∧
    fEqScaled r.scale_y (2 ^ 149) = true ∧
    fEqScaled r.scale_z (2 ^ 149) = true ∧
    (r.flag = 40 →
      fEqScaled r.rot_x 0 = true ∧ fEqScaled r.rot_y 0 = true ∧
      fEqScaled r.rot_z 0 = true ∧ fEqScaled r.trans_x 0 = true ∧
      fEqScaled r.trans_y 0 = true ∧ fEqScaled r.trans_z 0 = true ∧
      matrixEqScaled r.matrix identityScaled = true ∧
      o = ⟨none, none, none, extract_zero_signs r.matrix⟩) ∧
    (r.flag = 32 →
      fBetween (-piF32scaled) piF32scaled r.rot_x = true ∧
      fBetween (-piF32scaled) piF32scaled r.rot_y = true ∧
      fBetween (-piF32scaled) piF32scaled r.rot_z = true ∧
      o.rotation = some (r.rot_x, r.rot_y, r.rot_z) ∧
      o.translation = some (r.trans_x, r.trans_y, r.trans_z) ∧
      ((o.matrix = none ∧ o.matrix_sign = extract_zero_signs r.matrix) ∨
        (o.matrix = some r.matrix ∧ o.matrix_sign = 0))) := by
  rw [read_node_data_object3d] at h
  split at h
  next hg =>
    obtain ⟨hf, -, -, -, -, -, hsx, hsy, hsz, -, -⟩ := hg
    split at h
    next h40 =>
      split at h
      next hcond =>
        obtain ⟨hrx, hry, hrz, htx, hty, htz, hmat⟩ := hcond
        obtain rfl := Option.some.inj h
        exact ⟨hf, hsx, hsy, hsz,
          fun _ => ⟨hrx, hry, hrz, htx, hty, htz, hmat, rfl⟩,
          fun h32 => absurd (h32.symm.trans h40) (by decide)⟩
      next => cases h
    next h40 =>
      split at h
      next hrot =>
        obtain ⟨hbx, hby, hbz⟩ := hrot
        split at h
        next =>
          obtain rfl := Option.some.inj h
          exact ⟨hf, hsx, hsy, hsz, fun h40' => absurd h40' h40,
            fun _ => ⟨hbx, hby, hbz, rfl, rfl, Or.inl ⟨rfl, rfl⟩⟩⟩
        next =>
          obtain rfl := Option.some.inj h
          exact ⟨hf, hsx, hsy, hsz, fun h40' => absurd h40' h40,
            fun _ => ⟨hbx, hby, hbz, rfl, rfl, Or.inr ⟨rfl, rfl⟩⟩⟩
      next => cases h
  next => cases h

/-- C5, witness: a concrete flag-40 body with unit scale and identity
matrix is accepted, and `object3d_amended` applies to it. -/
theorem object3d_amended_witness :
    read_node_data_object3d (fun _ _ _ => [])
        ⟨40, 0, 0, 0, 0, 0, 0, 0, 0, 0x3F800000, 0x3F800000, 0x3F800000,
          [0x3F800000, 0, 0, 0, 0x3F800000, 0, 0, 0, 0x3F800000],
          0, 0, 0, List.replicate 42 0⟩ =
      some ⟨none, none, none, 0⟩ ∧
    ((40 : Nat) = 32 ∨ (40 : Nat) = 40) ∧
    matrixEqScaled [0x3F800000, 0, 0, 0, 0x3F800000, 0, 0, 0, 0x3F800000]
      identityScaled = true := by
  have h : read_node_data_object3d (fun _ _ _ => [])
      ⟨40, 0, 0, 0, 0, 0, 0, 0, 0, 0x3F800000, 0x3F800000, 0x3F800000,
        [0x3F800000, 0, 0, 0, 0x3F800000, 0, 0, 0, 0x3F800000],
        0, 0, 0, List.replicate 42 0⟩ =
      some ⟨none, none, none, 0⟩ := by decide
  have ha := object3d_amended (fun _ _ _ => []) _ _ h
  exact ⟨h, ha.1, (ha.2.2.2.2.1 rfl).2.2.2.2.2.2.1⟩

/-! ### C8: World partition grid -/

theorem readPartition_xy (ack : Nat → Nat → Nat → Bool) (data : List Nat)
    (off : Nat) (x y : Int) (p : Partition) (off2 : Nat)
    (h : readPartition ack data off x y = some (p, off2)) :
    p.x = x ∧ p.y = y := by
  rw [readPartition] at h
  rcases hw : unpackAt data off 72 with _ | w <;> simp only [hw] at h
  · cases h
  · split at h
    next =>
      split at h
      next =>
        split at h
        next =>
          rcases hn : unpackAt data (off + 72) (4 * fld16 w 58) with _ | nb <;>
            simp only [hn] at h
          · cases h
          · simp only [Option.some.injEq, Prod.mk.injEq] at h
            rw [← h.1]
            exact ⟨rfl, rfl⟩
        next => cases h
      next =>
        split at h
        next =>
          simp only [Option.some.injEq, Prod.mk.injEq] at h
          rw [← h.1]
          exact ⟨rfl, rfl⟩
        next => cases h
    next => cases h

theorem readRow_xy (ack : Nat → Nat → Nat → Bool) (data : List Nat) (y : Int) :
    ∀ (xs : List Int) (off : Nat) (row : List Partition) (off2 : Nat),
      readRow ack data y xs off = some (row, off2) →
      row.map (fun c => (c.x, c.y)) = xs.map fun x => (x, y) := by
  intro xs
  induction xs with
  | nil =>
    intro off row off2 h
    simp only [readRow, Option.some.injEq, Prod.mk.injEq] at h
    rw [← h.1]
    rfl
  | cons x xs ih =>
    intro off row off2 h
    rw [readRow] at h
    rcases hp : readPartition ack data off x y with _ | ⟨p, o2⟩ <;>
      simp only [hp] at h
    · cases h
    · rcases hr : readRow ack data y xs o2 with _ | ⟨ps, o3⟩ <;>
        simp only [hr] at h
      · cases h
      · simp only [Option.some.injEq, Prod.mk.injEq] at h
        rw [← h.1]
        obtain ⟨hx, hy⟩ := readPartition_xy ack data off x y p o2 hp
        simp only [List.map_cons, hx, hy, ih o2 ps o3 hr]

theorem readPartitions_xy (ack : Nat → Nat → Nat → Bool) (data : List Nat)
    (xs : List Int) :
    ∀ (ys : List Int) (off : Nat) (rows : List (List Partition)) (off2 : Nat),
      readPartitions ack data xs ys off = some (rows, off2) →
      rows.map (fun row => row.map fun c => (c.x, c.y)) =
        ys.map fun y => xs.map fun x => (x, y) := by
  intro ys
  induction ys with
  | nil =>
    intro off rows off2 h
    simp only [readPartitions, Option.some.injEq, Prod.mk.injEq] at h
    rw [← h.1]
    rfl
  | cons y ys ih =>
    intro off rows off2 h
    rw [readPartitions] at h
    rcases hr : readRow ack data y xs off with _ | ⟨row, o2⟩ <;>
      simp only [hr] at h
    · cases h
    · rcases hs : readPartitions ack data xs ys o2 with _ | ⟨rs, o3⟩ <;>
        simp only [hs] at h
      · cases h
      · simp only [Option.some.injEq, Prod.mk.injEq] at h
        rw [← h.1]
        simp only [List.map_cons, readRow_xy ack data y xs off row o2 hr,
          ih o2 rs o3 hs]

/-- C8: every accepted World body has an integer rectangle
`(left, top, right, bottom)` with the partition grid holding exactly one
cell per `(x, y)` for `x ∈ range(left, right, 256)` and
`y ∈ range(bottom, top, -256)`; the stored virtual-partition x/y counts
(words at bytes 136/140) equal the lengths of those ranges, and the
stored virtual-partition diagonal (word at byte 124) equals `-192.0`
exactly. -/
theorem world_partition_grid (ack : Nat → Nat → Nat → Bool) (data : List Nat)
    (off : Nat) (wld : World) (off2 : Nat)
    (h : read_world ack data off = some (wld, off2)) :
    ∃ left top right bottom : Int,
      wld.area = (left, top, right, bottom) ∧
      wld.partitions.map (fun row => row.map fun c => (c.x, c.y)) =
        (pyRange bottom top (-256)).map
          (fun y => (pyRange left right 256).map fun x => (x, y)) ∧
      ∃ w, unpackAt data off 188 = some w ∧
        fld w 136 = (pyRange left right 256).length ∧
        fld w 140 = (pyRange bottom top (-256)).length ∧
        fEqInt (-192) (fld w 124) = true := by
  rw [read_world] at h
  rcases hw : unpackAt data off 188 with _ | w <;> simp only [hw] at h
  · cases h
  · rcases h13 : pyInt (f32Val (fld w 52)) with _ | al <;> simp only [h13] at h
    · cases h
    rcases h14 : pyInt (f32Val (fld w 56)) with _ | ab <;> simp only [h14] at h
    · cases h
    rcases h17 : pyInt (f32Val (fld w 68)) with _ | ar <;> simp only [h17] at h
    · cases h
    rcases h18 : pyInt (f32Val (fld w 72)) with _ | at' <;> simp only [h18] at h
    · cases h
    split at h
    case isFalse => cases h
    split at h
    case isFalse => cases h
    split at h
    case isFalse => cases h
    case isTrue hg3 =>
    split at h
    case isFalse => cases h
    case isTrue hg4 =>
    rcases hch : unpackAt data ((off : Int) + 188) 4 with _ | child <;>
      simp only [hch] at h
    · cases h
    rcases hps : readPartitions ack data (pyRange al ar 256)
        (pyRange ab at' (-256)) (off + 192) with _ | ⟨parts, o2⟩ <;>
      simp only [hps] at h
    · cases h
    simp only [Option.some.injEq, Prod.mk.injEq] at h
    refine ⟨al, at', ar, ab, ?_, ?_, w, rfl, ?_, ?_,
      hg3.2.2.2.2.2.2.2.2.2.2.1⟩
    · rw [← h.1]
    · rw [← h.1]
      exact readPartitions_xy ack data _ _ _ _ _ hps
    · exact hg4.1
    · exact hg4.2.1

/-- C8, witness: the concrete one-cell world `worldBytesEx`. -/
theorem world_partition_grid_witness :
    ∃ left top right bottom : Int,
      worldEx.area = (left, top, right, bottom) ∧
      worldEx.partitions.map (fun row => row.map fun c => (c.x, c.y)) =
        (pyRange bottom top (-256)).map
          (fun y => (pyRange left right 256).map fun x => (x, y)) ∧
      ∃ w, unpackAt worldBytesEx 0 188 = some w ∧
        fld w 136 = (pyRange left right 256).length ∧
        fld w 140 = (pyRange bottom top (-256)).length ∧
        fEqInt (-192) (fld w 124) = true :=
  world_partition_grid (fun _ _ _ => true) worldBytesEx 0 worldEx 264
    (by decide)

/-! ### C9: simple alpha for non-palettized textures -/

theorem unpackAt_length (data : List Nat) (off : Int) (size : Nat)
    (w : List Nat) (h : unpackAt data off size = some w) : w.length = size := by
  simp only [unpackAt] at h
  split at h <;> split at h
  all_goals cases h
  all_goals simp only [List.length_take, List.length_drop]
  all_goals omega

theorem toU16s_length : ∀ bs : List Nat, (toU16s bs).length = bs.length / 2
  | [] => rfl
  | [_] => by simp [toU16s]
  | _ :: _ :: rest => by
    rw [toU16s]
    simp only [List.length_cons, toU16s_length rest]
    omega


theorem read_texture_simple_alpha (conv565 : List Nat → List Nat)
    (convPal : List Nat → List Nat → List Nat) (data name w16 : List Nat)
    (off : Nat) (t : DecodedTexture) (off2 : Nat)
    (hw : unpackAt data (off : Nat) 16 = some w16)
    (hpal : le16 ((w16.drop 12).take 2) = 0)
    (hbit1 : (le32 (w16.take 4)).testBit 1 = true)
    (hbit3 : (le32 (w16.take 4)).testBit 3 = false)
    (hd : read_texture conv565 convPal data name off = some (t, off2)) :
    t.flag = le32 (w16.take 4) ∧ t.palette_count = 0 ∧
    ∃ pixelBytes, unpackAt data (off + 16 : Nat)
        (2 * (t.image.w * t.image.h)) = some pixelBytes ∧
      (t.image.alpha = some (simple_alpha565 (toU16s pixelBytes)) ∨
        (t.image.w * t.image.h = 0 ∧ t.image.alpha = none)) := by
  simp only [read_texture] at hd
  rw [hw] at hd
  simp only at hd
  split at hd
  case isFalse => cases hd
  case isTrue hv =>
  rcases hpx : unpackAt data ((off + 16 : Nat) : Int)
      (2 * (le16 ((w16.drop 4).take 2) * le16 ((w16.drop 6).take 2))) with
    _ | pixelBytes <;> simp only [hpx] at hd
  · cases hd
  simp only [hbit1, hbit3, Bool.false_eq_true, if_false, Bool.not_false,
    Bool.and_true, if_true] at hd
  split at hd
  case isFalse => cases hd
  case isTrue hlen =>
  split at hd
  next htr =>
    split at hd
    case isFalse => cases hd
    case isTrue hsz =>
    simp only [Option.some.injEq, Prod.mk.injEq] at hd
    obtain ⟨ht, -⟩ := hd
    subst ht
    refine ⟨rfl, rfl, pixelBytes, hpx, Or.inl ?_⟩
    simp only [Option.some.injEq]
    apply List.take_of_length_le
    have h1 := unpackAt_length _ _ _ _ hpx
    have h2 := toU16s_length pixelBytes
    simp only [simple_alpha565, List.length_map]
    omega
  next htr =>
    simp only [Option.some.injEq, Prod.mk.injEq] at hd
    obtain ⟨ht, -⟩ := hd
    subst ht
    have ha : simple_alpha565 (toU16s pixelBytes) = [] := by
      rcases hcase : simple_alpha565 (toU16s pixelBytes) with _ | ⟨b, bs⟩
      · rfl
      · rw [hcase] at htr
        simp [truthy] at htr
    have h1 := unpackAt_length _ _ _ _ hpx
    have h4 := congrArg List.length ha
    simp only [simple_alpha565, List.length_map, toU16s_length,
      List.length_nil] at h4
    have hsz : le16 ((w16.drop 4).take 2) * le16 ((w16.drop 6).take 2) = 0 := by
      omega
    exact ⟨rfl, rfl, pixelBytes, hpx, Or.inr ⟨hsz, rfl⟩⟩

theorem truthy_none : truthy none = false := rfl

theorem encodeTexture_no_alpha (conv888 : List Nat → List Nat)
    (t : DecodedTexture) (enc : EncodedTexture)
    (hpal : t.palette_count = 0) (hbit3 : t.flag.testBit 3 = false)
    (henc : encodeTexture conv888 t = some enc) :
    enc.alpha_data = none ∧
    ∀ out, texRecord enc = some out →
      ∃ info, packTexInfo enc.flag enc.width enc.height enc.palette_count
          enc.stretch = some info ∧ out = info ++ enc.image_data := by
  simp only [encodeTexture, hpal, hbit3, Bool.false_eq_true, if_false,
    ne_eq, not_true_eq_false, not_false_eq_true, if_true] at henc
  split at henc
  case isTrue => cases henc
  case isFalse hbit0 =>
  split at henc
  next heq => cases henc
  next image_data palette_data heq =>
    split at henc
    case isFalse => cases henc
    case isTrue hok =>
    obtain rfl := Option.some.inj henc
    split at heq
    case isFalse => cases heq
    case isTrue hmode =>
    simp only [Option.some.injEq, Prod.mk.injEq] at heq
    obtain ⟨-, hpd⟩ := heq
    subst hpd
    refine ⟨rfl, ?_⟩
    intro out hout
    simp only [texRecord, truthy_none, Bool.false_eq_true, if_false, ne_eq,
      eq_self_iff_true, not_true, if_true] at hout
    rcases hinfo : packTexInfo t.flag t.image.w t.image.h 0 t.stretch with
      _ | info <;> simp only [hinfo] at hout
    · cases hout
    · split at hout
      case isFalse => cases hout
      case isTrue hlenok =>
      obtain rfl := Option.some.inj hout
      refine ⟨info, rfl, ?_⟩
      simp

/-- C9: for every texture record whose stored info word has `HasAlpha`
(bit 1) set, `FullAlpha` (bit 3) clear and palette count 0, a successful
decode yields a non-palettized texture whose alpha plane assigns 0 to
every 16-bit pixel equal to 0 and 255 to every other pixel (absent only
for a zero-pixel image, where Python's falsy empty plane skips
`putalpha`); re-encoding that texture drops the alpha plane
(`alpha_data = none`) and its output record is exactly the info header
followed by the image data — the synthesized alpha is never written
back. -/
theorem texture_simple_alpha (conv565 : List Nat → List Nat)
    (convPal : List Nat → List Nat → List Nat) (conv888 : List Nat → List Nat)
    (data name w16 : List Nat) (off : Nat) (t : DecodedTexture) (off2 : Nat)
    (hw : unpackAt data (off : Nat) 16 = some w16)
    (hpal : le16 ((w16.drop 12).take 2) = 0)
    (hbit1 : (le32 (w16.take 4)).testBit 1 = true)
    (hbit3 : (le32 (w16.take 4)).testBit 3 = false)
    (hd : read_texture conv565 convPal data name off = some (t, off2)) :
    t.flag = le32 (w16.take 4) ∧ t.palette_count = 0 ∧
    (∃ pixelBytes, unpackAt data (off + 16 : Nat)
        (2 * (t.image.w * t.image.h)) = some pixelBytes ∧
      (t.image.alpha = some (simple_alpha565 (toU16s pixelBytes)) ∨
        (t.image.w * t.image.h = 0 ∧ t.image.alpha = none))) ∧
    (∀ enc, encodeTexture conv888 t = some enc →
      enc.alpha_data = none ∧
      ∀ out, texRecord enc = some out →
        ∃ info, packTexInfo enc.flag enc.width enc.height enc.palette_count
            enc.stretch = some info ∧ out = info ++ enc.image_data) := by
  obtain ⟨hf, hp, hdec⟩ :=
    read_texture_simple_alpha conv565 convPal data name w16 off t off2
      hw hpal hbit1 hbit3 hd
  exact ⟨hf, hp, hdec, fun enc henc =>
    encodeTexture_no_alpha conv888 t enc hp (by rw [hf]; exact hbit3) henc⟩

/-- C9, witness: the 1×1 black-pixel record `texBytesEx` with flag 3. -/
theorem texture_simple_alpha_witness :
    texEx.flag = le32 ([3, 0, 0, 0, 1, 0, 1, 0, 0, 0, 0, 0, 0, 0, 0,
      0].take 4) ∧ texEx.palette_count = 0 ∧
    (∃ pixelBytes, unpackAt texBytesEx (0 + 16 : Nat)
        (2 * (texEx.image.w * texEx.image.h)) = some pixelBytes ∧
      (texEx.image.alpha = some (simple_alpha565 (toU16s pixelBytes)) ∨
        (texEx.image.w * texEx.image.h = 0 ∧ texEx.image.alpha = none))) ∧
    (∀ enc, encodeTexture (fun _ => [0, 0]) texEx = some enc →
      enc.alpha_data = none ∧
      ∀ out, texRecord enc = some out →
        ∃ info, packTexInfo enc.flag enc.width enc.height enc.palette_count
            enc.stretch = some info ∧ out = info ++ enc.image_data) :=
  texture_simple_alpha (fun _ => [0, 0, 0]) (fun _ _ => []) (fun _ => [0, 0])
    texBytesEx [97] [3, 0, 0, 0, 1, 0, 1, 0, 0, 0, 0, 0, 0, 0, 0, 0] 0 texEx 18
    (by decide) (by decide) (by decide) (by decide) (by decide)
